import Mathlib

/-!
Verification development for the `list-scrub-excel` record-linkage engine.

Modelling conventions, used throughout:

* Cell values are modelled as `Str := List Char`; a `Option Str` cell models a
  pandas cell that may be `NaN` (`none`).  `cellStr` models `astype(str)`
  (which renders `NaN` as the string `"nan"`), `cellEmpty` models
  `fillna("")`.
* Python `str.lower` is modelled on ASCII letters (`lowerChar`), `str.strip`
  and the regex class `\s` on the common whitespace characters
  (`isSpaceChar`), the regex class `\w` as ASCII alphanumerics plus
  underscore (`isWordChar`).  All data the engine compares are ASCII.
* Floating-point configuration values and scores are modelled as exact
  rationals (`ℚ`); the engine only adds, negates and compares them.
* External collaborators are kept abstract: `thefuzz`'s `fuzz.ratio` and
  `fuzz.token_set_ratio` are parameters `fr tsr : Str → Str → ℕ`, and the
  TF-IDF cosine similarity of a query search string against an account row
  is a parameter `sim : Str → ℕ → ℚ`.  `np.argsort` is modelled by a
  deterministic (stable) sort of positions.
-/

abbrev Str := List Char

def ofString (s : String) : Str := s.data

/-- Model of the regex class `\s` and of the characters removed by
`str.strip`: space, tab, newline, carriage return, vertical tab, form feed. -/
def isSpaceChar (c : Char) : Bool :=
  c == ' ' || c == '\t' || c == '\n' || c == '\r' || c == '\x0b' || c == '\x0c'

/-- Model of the regex class `\w`: ASCII alphanumerics and underscore. -/
def isWordChar (c : Char) : Bool :=
  c.isAlphanum || c == '_'

/-- The 26 upper/lower case ASCII letter pairs. -/
def upperLowerPairs : List (Char × Char) :=
  [('A', 'a'), ('B', 'b'), ('C', 'c'), ('D', 'd'), ('E', 'e'), ('F', 'f'),
   ('G', 'g'), ('H', 'h'), ('I', 'i'), ('J', 'j'), ('K', 'k'), ('L', 'l'),
   ('M', 'm'), ('N', 'n'), ('O', 'o'), ('P', 'p'), ('Q', 'q'), ('R', 'r'),
   ('S', 's'), ('T', 't'), ('U', 'u'), ('V', 'v'), ('W', 'w'), ('X', 'x'),
   ('Y', 'y'), ('Z', 'z')]

/-- Model of `str.lower` on a single character (ASCII model). -/
def lowerChar (c : Char) : Char :=
  match upperLowerPairs.find? (fun p => p.1 == c) with
  | some p => p.2
  | none => c

/-- Model of `str.lower` on a whole cell value. -/
def lowerStr (l : Str) : Str := l.map lowerChar

/-- Left part of `str.strip`: drop leading whitespace. -/
def trimL (l : Str) : Str := l.dropWhile isSpaceChar

/-- Right part of `str.strip`: drop trailing whitespace. -/
def trimR : Str → Str
  | [] => []
  | c :: cs =>
    match trimR cs with
    | [] => if isSpaceChar c then [] else [c]
    | r => c :: r

/-- Model of Python `str.strip()`. -/
def trimStr (l : Str) : Str := trimR (trimL l)

/-- Model of `str.split(sep)` for a single-character separator, and of
`re.split` over a class of separator characters: splits at every separator,
keeping empty segments (`"".split(".") == [""]`, `"a..b".split(".") ==
["a", "", "b"]`). -/
def splitOnPred (p : Char → Bool) : Str → List Str
  | [] => [[]]
  | c :: cs =>
    match splitOnPred p cs with
    | [] => if p c then [[], []] else [[c]]
    | s :: ss => if p c then [] :: s :: ss else (c :: s) :: ss

/-- Whitespace tokens of a string: `re.split(r"\s+", v)` with empty pieces
discarded (equivalently Python `str.split()` with no argument). -/
def tokensOf (l : Str) : List Str :=
  (splitOnPred isSpaceChar l).filter (fun t => !t.isEmpty)

/-- `l.take k == pre`, i.e. the string starts with the given literal. -/
def hasHead (pre l : Str) : Bool := l.take pre.length == pre

/-- Strip a literal head if present (used to model anchored `re.sub`). -/
def dropHead (pre l : Str) : Str :=
  if hasHead pre l then l.drop pre.length else l

/-- Model of pandas `astype(str)` on a possibly-`NaN` cell: `str(nan)` is the
string `"nan"`. -/
def cellStr (c : Option Str) : Str :=
  match c with
  | none => ofString "nan"
  | some s => s

/-- Model of pandas `fillna("")` followed by `astype(str)`. -/
def cellEmpty (c : Option Str) : Str :=
  match c with
  | none => []
  | some s => s

/-! ### normalization.py -/

/-- `JUNK_STRINGS` of `normalization.py` line 5. -/
def junkList : List Str :=
  [ofString "nan", ofString "none", ofString "null", ofString "n/a",
   ofString "na", ofString "-", ofString ""]

/-- `_clean_text_series` (`normalization.py` lines 8-10) on one cell:
`fillna("") → astype(str) → lower → strip`, then junk sentinels coerced to
the empty string. -/
def cleanText (c : Option Str) : Str :=
  let v := trimStr (lowerStr (cellEmpty c))
  if v ∈ junkList then [] else v

/-- The corporate suffixes stripped by `normalize_company`
(`normalization.py` line 22). -/
def companySuffixes : List Str :=
  [ofString "llc", ofString "inc", ofString "corp", ofString "ltd",
   ofString "lp", ofString "co"]

/-- Whether the regex `\s+-\s+` matches at the start of the string:
one or more whitespace characters, a dash, one or more whitespace
characters.  (Because a dash can only follow the maximal run of leading
whitespace, greedy matching is equivalent to the regex semantics.) -/
def dashTailAt (l : Str) : Bool :=
  let ws := l.takeWhile isSpaceChar
  !ws.isEmpty &&
    match l.drop ws.length with
    | '-' :: rest => !(rest.takeWhile isSpaceChar).isEmpty
    | _ => false

/-- `s.str.replace(r'\s+-\s+.*$', '', regex=True)` (`normalization.py`
line 20) on a single-line cell value: delete everything from the leftmost
match of `\s+-\s+` to the end. -/
def cutDash : Str → Str
  | [] => []
  | c :: cs => if dashTailAt (c :: cs) then [] else c :: cutDash cs

/-- `normalize_company` (`normalization.py` lines 13-27) on one cell, after
`astype(str)`: lowercase, cut the trailing `" - …"` clause, strip
non-word/non-space characters, remove whole-word corporate suffixes
(`\b(llc|inc|corp|ltd|lp|co)\b`), collapse whitespace, trim, and remove the
remaining spaces.  After punctuation removal the string contains only word
and whitespace characters, so the word-boundary suffix removal followed by
whitespace collapsing, trimming and space removal is exactly: split into
whitespace-separated tokens, drop suffix tokens, and concatenate. -/
def normCompanyStr (s : Str) : Str :=
  let s1 := lowerStr s
  let s2 := cutDash s1
  let s3 := s2.filter (fun c => isWordChar c || isSpaceChar c)
  ((tokensOf s3).filter (fun t => !companySuffixes.contains t)).flatten

/-- The company rule as a cell transformation (`df[source_col].astype(str)`
feeds `normalize_company`). -/
def companyRule (c : Option Str) : Str := normCompanyStr (cellStr c)

/-- `re.sub(r'^(https?://)?(www\.)?', '', s)` / the same anchored pattern in
`normalize_website` (`normalization.py` line 67): strip an optional scheme,
then an optional `www.`. -/
def stripSchemeWww (l : Str) : Str :=
  dropHead (ofString "www.") (dropHead (ofString "http://") (dropHead (ofString "https://") l))

/-- `normalize_website` (`normalization.py` lines 60-71) on one cell:
clean text, strip scheme and `www.`, truncate at the first `/` and `?`,
strip. -/
def websiteRule (c : Option Str) : Str :=
  let s := cleanText c
  let s1 := stripSchemeWww s
  let s2 := (s1.takeWhile (fun ch => ch != '/')).takeWhile (fun ch => ch != '?')
  trimStr s2

/-- The second-level-domain exceptions of `normalize_domain`
(`normalization.py` line 179). -/
def sldExceptions : List Str :=
  [ofString "co.uk", ofString "org.uk", ofString "ac.uk",
   ofString "com.au", ofString "net.au", ofString "co.jp"]

def dotStr : Str := ofString "."

/-- `normalize_domain`'s `extract` (`normalization.py` lines 166-182) on one
cell: `NaN → ""`; lowercase and strip; strip an anchored scheme and `www.`;
truncate at `/` and `?`; split on `.`; with at most two labels return the
host, otherwise the last two labels, except that a listed public suffix
keeps three labels. -/
def domainRule (c : Option Str) : Str :=
  match c with
  | none => []
  | some s =>
    let h0 := trimStr (lowerStr s)
    let h1 := dropHead (ofString "http://") (dropHead (ofString "https://") h0)
    let h2 := dropHead (ofString "www.") h1
    let h3 := (h2.takeWhile (fun ch => ch != '/')).takeWhile (fun ch => ch != '?')
    if h3 = [] then []
    else
      let parts := splitOnPred (fun ch => ch == '.') h3
      if parts.length ≤ 2 then h3
      else
        let sld := List.intercalate dotStr (parts.drop (parts.length - 2))
        if sld ∈ sldExceptions ∧ 3 ≤ parts.length then
          List.intercalate dotStr (parts.drop (parts.length - 3))
        else sld

/-- Whether one of the unit markers `#`, `apt`, `suite`, `ste` of the street
regex `\s(?:#|apt|suite|ste)\s?\w*` starts here. -/
def unitAt (l : Str) : Bool :=
  hasHead (ofString "#") l || hasHead (ofString "apt") l ||
    hasHead (ofString "suite") l || hasHead (ofString "ste") l

/-- `s.str.split(r'\s(?:#|apt|suite|ste)\s?\w*', n=1, expand=True)[0]`
(`normalization.py` line 37): keep the text before the leftmost match,
which starts at a whitespace character followed by a unit marker. -/
def cutUnit : Str → Str
  | [] => []
  | c :: cs => if isSpaceChar c && unitAt cs then [] else c :: cutUnit cs

/-- `normalize_street` (`normalization.py` lines 30-41) on one cell: clean
text, cut at the unit marker, strip non-word/non-space characters, remove
all whitespace (`replace(r'\s+', '')`), strip. -/
def streetRule (c : Option Str) : Str :=
  let s := cleanText c
  let s1 := cutUnit s
  let s2 := s1.filter (fun ch => isWordChar ch || isSpaceChar ch)
  let s3 := s2.filter (fun ch => !isSpaceChar ch)
  trimStr s3

/-- Python `str.zfill` on a digit string: left-pad with zeros to the given
width (sign handling is irrelevant here, the input is all digits). -/
def zfill (n : Nat) (l : Str) : Str :=
  if n ≤ l.length then l else List.replicate (n - l.length) '0' ++ l

/-- `format_postal` inside `normalize_postal` (`normalization.py` lines
50-54): `NaN → ""`; else keep the digits of `str(code)` and, when at least
five digits remain, return the first five (with the source's `.zfill(5)`
applied); otherwise return the empty string. -/
def postalRule (c : Option Str) : Str :=
  match c with
  | none => []
  | some s =>
    let digits := s.filter Char.isDigit
    if 5 ≤ digits.length then zfill 5 (digits.take 5) else []

/-- The digit sequence of a cell (`NaN` has none). -/
def digitsOfCell (c : Option Str) : Str :=
  match c with
  | none => []
  | some s => s.filter Char.isDigit

/-- `normalize_phone` (`normalization.py` lines 74-81) on a whole column.
The source computes
`astype(str).str.extractall(r'([0-9])').unstack().fillna('').agg(''.join)`:
`extractall` keeps only rows with at least one digit match, so rows whose
value contains no digit are absent from the aggregated series, and the
column assignment re-aligns on the index leaving `NaN` (`none`) there.
Rows with digits get the concatenation of their digits in original order. -/
def phoneCell (c : Option Str) : Option Str :=
  let d := (cellStr c).filter Char.isDigit
  if d.isEmpty then none else some d

def normalizePhoneCol (col : List (Option Str)) : List (Option Str) :=
  col.map phoneCell

/-- The plain per-row digit concatenation described by the specification for
the phone rule ("concatenate all ASCII digits in order", empty string when
there is none). -/
def specPhoneCol (col : List (Option Str)) : List (Option Str) :=
  col.map (fun c => some ((cellStr c).filter Char.isDigit))

/-- `normalize_text_field` (`normalization.py` lines 84-89) on one cell. -/
def textRule (c : Option Str) : Str := cleanText c

/-- First-match lookup with a default, modelling `dict.get(v, v)` over an
association list. -/
def mapGetD (m : List (Str × Str)) (k dflt : Str) : Str :=
  match m.find? (fun p => p.1 == k) with
  | some p => p.2
  | none => dflt

/-- `state_map` of `normalize_state` (`normalization.py` lines 98-112). -/
def stateMap : List (Str × Str) :=
  [(ofString "alabama", ofString "al"), (ofString "alaska", ofString "ak"),
   (ofString "arizona", ofString "az"), (ofString "arkansas", ofString "ar"),
   (ofString "california", ofString "ca"), (ofString "colorado", ofString "co"),
   (ofString "connecticut", ofString "ct"), (ofString "delaware", ofString "de"),
   (ofString "florida", ofString "fl"), (ofString "georgia", ofString "ga"),
   (ofString "hawaii", ofString "hi"), (ofString "idaho", ofString "id"),
   (ofString "illinois", ofString "il"), (ofString "indiana", ofString "in"),
   (ofString "iowa", ofString "ia"), (ofString "kansas", ofString "ks"),
   (ofString "kentucky", ofString "ky"), (ofString "louisiana", ofString "la"),
   (ofString "maine", ofString "me"), (ofString "maryland", ofString "md"),
   (ofString "massachusetts", ofString "ma"), (ofString "michigan", ofString "mi"),
   (ofString "minnesota", ofString "mn"), (ofString "mississippi", ofString "ms"),
   (ofString "missouri", ofString "mo"), (ofString "montana", ofString "mt"),
   (ofString "nebraska", ofString "ne"), (ofString "nevada", ofString "nv"),
   (ofString "new hampshire", ofString "nh"), (ofString "new jersey", ofString "nj"),
   (ofString "new mexico", ofString "nm"), (ofString "new york", ofString "ny"),
   (ofString "north carolina", ofString "nc"), (ofString "north dakota", ofString "nd"),
   (ofString "ohio", ofString "oh"), (ofString "oklahoma", ofString "ok"),
   (ofString "oregon", ofString "or"), (ofString "pennsylvania", ofString "pa"),
   (ofString "rhode island", ofString "ri"), (ofString "south carolina", ofString "sc"),
   (ofString "south dakota", ofString "sd"), (ofString "tennessee", ofString "tn"),
   (ofString "texas", ofString "tx"), (ofString "utah", ofString "ut"),
   (ofString "vermont", ofString "vt"), (ofString "virginia", ofString "va"),
   (ofString "washington", ofString "wa"), (ofString "west virginia", ofString "wv"),
   (ofString "wisconsin", ofString "wi"), (ofString "wyoming", ofString "wy"),
   (ofString "district of columbia", ofString "dc")]

def stateValues : List Str := stateMap.map Prod.snd

/-- `canon` inside `normalize_state` (`normalization.py` lines 114-122) on
one cell: `NaN → ""`; strip and lowercase; empty stays empty; a value that
already is a two-letter code is kept; otherwise look it up in the map,
defaulting to the value itself. -/
def stateRule (c : Option Str) : Str :=
  match c with
  | none => []
  | some s =>
    let v := lowerStr (trimStr s)
    if v = [] then []
    else if v ∈ stateValues then v
    else mapGetD stateMap v v

/-- `country_map` of `normalize_country` (`normalization.py` lines
134-146). -/
def countryMap : List (Str × Str) :=
  [(ofString "united states", ofString "us"),
   (ofString "united states of america", ofString "us"),
   (ofString "usa", ofString "us"), (ofString "us", ofString "us"),
   (ofString "canada", ofString "ca"), (ofString "ca", ofString "ca"),
   (ofString "united kingdom", ofString "gb"), (ofString "uk", ofString "gb"),
   (ofString "great britain", ofString "gb"),
   (ofString "australia", ofString "au"), (ofString "au", ofString "au")]

/-- `canon` inside `normalize_country` (`normalization.py` lines 148-154) on
one cell. -/
def countryRule (c : Option Str) : Str :=
  match c with
  | none => []
  | some s =>
    let v := lowerStr (trimStr s)
    if v = [] then [] else mapGetD countryMap v v

/-! ### `AccountScrubber._normalize_identifier` (`scrubbing.py` lines 154-161) -/

/-- The CCN branch (`digits_only=True`): `fillna("") → astype(str) → strip →
lower`, remove `\D`, keep only when the digit count is 5 or 6. -/
def ccnRule (c : Option Str) : Str :=
  let d := (lowerStr (trimStr (cellEmpty c))).filter Char.isDigit
  if d.length = 5 ∨ d.length = 6 then d else []

/-- The DHC branch (`digits_only=False`): `fillna("") → astype(str) → strip →
lower`, keep only when the length is at least 5. -/
def dhcRule (c : Option Str) : Str :=
  let v := lowerStr (trimStr (cellEmpty c))
  if 5 ≤ v.length then v else []

/-! ### Data model of the matching portion of `AccountScrubber.run`

Rows are modelled after normalization (stage "2/4" of `run`): all normalized
projections are plain strings, the raw `email` cell keeps its possible
`NaN` (`Option`).  `idx` is the row's `original_index`. -/

structure SRow where
  idx : Nat
  email : Option Str
  normalizedcompany : Str
  normalizedwebsite : Str
  normalizeddomain : Str
  normalizedphone : Str
  normalizedstreet : Str
  normalizedpostal : Str
  city : Str
  state : Str
  country : Str
  normalized_lob : Str
  normalizedccn : Str
  normalizeddhc : Str
deriving DecidableEq

structure ARow where
  account_id : Str
  company : Str
  normalizedcompany : Str
  normalizedwebsite : Str
  normalizeddomain : Str
  normalizedphone : Str
  normalizedstreet : Str
  normalizedpostal : Str
  city : Str
  state : Str
  country : Str
  normalized_lob : Str
  normalizedccn : Str
  normalizeddhc : Str
deriving DecidableEq

def defaultARow : ARow :=
  ⟨[], [], [], [], [], [], [], [], [], [], [], [], [], []⟩

instance : Inhabited ARow := ⟨defaultARow⟩

structure CRow where
  id : Str
  email : Option Str
  accountid : Str
  firstname : Str
  lastname : Str
  title : Str
deriving DecidableEq

/-- `Scoring_Weights` (`settings.py` lines 24-31), as exact rationals. -/
structure Weights where
  company_name : ℚ
  website : ℚ
  phone : ℚ
  street : ℚ
  postal_code : ℚ
  city : ℚ
  primary_lob : ℚ
deriving DecidableEq

/-- `Scoring_Penalties` (`settings.py` lines 34-37). -/
structure Pen where
  location_mismatch_penalty : ℚ
  conflicting_website_penalty : ℚ
deriving DecidableEq

/-- `Scoring_Contact` weights (`settings.py` lines 40-45). -/
structure CWeights where
  email : ℚ
  first_name : ℚ
  last_name : ℚ
  title : ℚ
deriving DecidableEq

/-! ### `AccountScrubber._score_candidate` (`scrubbing.py` lines 45-118)

The running score is a sum of independent per-signal contributions; each
contribution below is a direct translation of one `if` block, in source
order.  `fr` and `tsr` stand for the external `fuzz.ratio` and
`fuzz.token_set_ratio` (integer results 0-100). -/

/-- Country block (`scrubbing.py` lines 51-55). -/
def countrySignal (pen : Pen) (qc ac : Str) : ℚ :=
  if qc ≠ [] ∧ ac ≠ [] ∧ qc ≠ ac then -pen.location_mismatch_penalty else 0

/-- State block (`scrubbing.py` lines 57-61). -/
def stateSignal (pen : Pen) (qs as : Str) : ℚ :=
  if qs ≠ [] ∧ as ≠ [] ∧ qs ≠ as then -pen.location_mismatch_penalty else 0

/-- Company-name block (`scrubbing.py` lines 63-67): no emptiness guard in
the source; the score is added only when above the noise floor 1. -/
def nameSignal (tsr : Str → Str → ℕ) (w : Weights) (qn an : Str) : ℚ :=
  let s : ℚ := w.company_name * (tsr qn an : ℚ) / 100
  if s > 1 then s else 0

/-- Website block (`scrubbing.py` lines 69-77): exact-match bonus, else a
conflict penalty when the configured penalty is nonzero (Python float
truthiness). -/
def websiteSignal (w : Weights) (pen : Pen) (qw aw : Str) : ℚ :=
  if qw ≠ [] ∧ aw ≠ [] ∧ qw = aw then w.website
  else if qw ≠ [] ∧ aw ≠ [] ∧ qw ≠ aw ∧ pen.conflicting_website_penalty ≠ 0 then
    -pen.conflicting_website_penalty
  else 0

/-- Phone block (`scrubbing.py` lines 79-84). -/
def phoneSignal (w : Weights) (qp ap : Str) : ℚ :=
  if qp ≠ [] ∧ ap ≠ [] ∧ qp = ap then w.phone else 0

/-- Street block (`scrubbing.py` lines 86-93). -/
def streetSignal (fr : Str → Str → ℕ) (w : Weights) (qs as : Str) : ℚ :=
  if qs ≠ [] ∧ as ≠ [] then
    let s : ℚ := w.street * (fr qs as : ℚ) / 100
    if s > 1 then s else 0
  else 0

/-- City block (`scrubbing.py` lines 95-102). -/
def citySignal (fr : Str → Str → ℕ) (w : Weights) (qc ac : Str) : ℚ :=
  if qc ≠ [] ∧ ac ≠ [] then
    let s : ℚ := w.city * (fr qc ac : ℚ) / 100
    if s > 1 then s else 0
  else 0

/-- Postal block (`scrubbing.py` lines 104-107): guarded by the query side
being non-empty plus equality. -/
def postalSignal (w : Weights) (qp ap : Str) : ℚ :=
  if qp ≠ [] ∧ qp = ap then w.postal_code else 0

/-- LOB block (`scrubbing.py` lines 109-116). -/
def lobSignal (tsr : Str → Str → ℕ) (w : Weights) (ql al : Str) : ℚ :=
  if ql ≠ [] ∧ al ≠ [] then
    let s : ℚ := w.primary_lob * (tsr ql al : ℚ) / 100
    if s > 1 then s else 0
  else 0

/-- `_score_candidate`'s returned score (the human-readable details CSV is
not modelled).  -/
def scoreCandidate (fr tsr : Str → Str → ℕ) (w : Weights) (pen : Pen)
    (q : SRow) (a : ARow) : ℚ :=
  countrySignal pen q.country a.country
    + stateSignal pen q.state a.state
    + nameSignal tsr w q.normalizedcompany a.normalizedcompany
    + websiteSignal w pen q.normalizedwebsite a.normalizedwebsite
    + phoneSignal w q.normalizedphone a.normalizedphone
    + streetSignal fr w q.normalizedstreet a.normalizedstreet
    + citySignal fr w q.city a.city
    + postalSignal w q.normalizedpostal a.normalizedpostal
    + lobSignal tsr w q.normalized_lob a.normalized_lob

/-! ### `ContactScrubber._score_candidate_contact` (`scrubbing.py` lines 478-504) -/

/-- Email block (`scrubbing.py` lines 481-484). -/
def contactEmailSignal (cw : CWeights) (qe ae : Str) : ℚ :=
  if qe ≠ [] ∧ qe = ae then cw.email else 0

/-- First-name block (`scrubbing.py` lines 486-490): no emptiness guard,
noise floor 0.1. -/
def contactFirstSignal (fr : Str → Str → ℕ) (cw : CWeights) (qf af : Str) : ℚ :=
  let s : ℚ := cw.first_name * (fr qf af : ℚ) / 100
  if s > 1 / 10 then s else 0

/-- Last-name block (`scrubbing.py` lines 492-496). -/
def contactLastSignal (fr : Str → Str → ℕ) (cw : CWeights) (ql al : Str) : ℚ :=
  let s : ℚ := cw.last_name * (fr ql al : ℚ) / 100
  if s > 1 / 10 then s else 0

/-- Title block (`scrubbing.py` lines 498-502). -/
def contactTitleSignal (tsr : Str → Str → ℕ) (cw : CWeights) (qt at' : Str) : ℚ :=
  let s : ℚ := cw.title * (tsr qt at' : ℚ) / 100
  if s > 1 / 10 then s else 0

def scoreContact (fr tsr : Str → Str → ℕ) (cw : CWeights)
    (qe qf ql qt ae af al at' : Str) : ℚ :=
  contactEmailSignal cw qe ae + contactFirstSignal fr cw qf af
    + contactLastSignal fr cw ql al + contactTitleSignal tsr cw qt at'

/-! ### `AccountScrubber._strip_generic_facility_tokens` and search strings -/

def facilityTokens : List Str :=
  [ofString "hospital", ofString "clinic", ofString "center", ofString "centre",
   ofString "rehab", ofString "rehabilitation", ofString "care",
   ofString "nursing", ofString "facility", ofString "facilities",
   ofString "health", ofString "healthcare"]

/-- `_strip_generic_facility_tokens` (`scrubbing.py` lines 35-43):
`re.split(r"\s+")`, drop empty and generic tokens, re-join with single
spaces. -/
def stripFacility (v : Str) : Str :=
  List.intercalate (ofString " ")
    ((tokensOf v).filter (fun t => !facilityTokens.contains t))

/-- The per-row search string of Stage 2 (`scrubbing.py` lines 318-325):
`facility_stripped(normalizedcompany) + " " + normalizedwebsite + " " +
normalizedpostal`, stripped. -/
def rowSearchString (q : SRow) : Str :=
  trimStr (stripFacility q.normalizedcompany ++ [' '] ++ q.normalizedwebsite
    ++ [' '] ++ q.normalizedpostal)

/-! ### `AccountScrubber._build_index` (`scrubbing.py` lines 170-173) and
candidate selection (`scrubbing.py` lines 329-339) -/

/-- Helper of `dedupBy`: keep each element whose key was not seen before. -/
def dedupByAux {α : Type} (key : α → Str) (seen : List Str) : List α → List α
  | [] => []
  | c :: cs =>
    if key c ∈ seen then dedupByAux key seen cs
    else c :: dedupByAux key (key c :: seen) cs

/-- First-wins deduplication on a key, modelling
`drop_duplicates(subset=[key], keep="first")` and the unique-key lookup
tables (`drop_duplicates(key).set_index(key)`): the first row with each key
value is retained, in order. -/
def dedupBy {α : Type} (key : α → Str) (l : List α) : List α :=
  dedupByAux key [] l

/-- Row positions of a key value, as produced by
`df.reset_index().groupby(column)`. -/
def positionsOf (rows : List ARow) (key : ARow → Str) (k : Str) : List Nat :=
  (rows.enum.filter (fun p => key p.2 == k)).map Prod.fst

/-- `_build_index`: one entry per distinct key value occurring in the
column, excluding the falsy (empty) key (`if k` in the dict
comprehension), mapping to the positions where it occurs. -/
def buildIndex (rows : List ARow) (key : ARow → Str) : List (Str × List Nat) :=
  ((dedupBy id (rows.map key)).filter (fun k => !k.isEmpty)).map
    (fun k => (k, positionsOf rows key k))

/-- `index.get(k, [])` on a built index. -/
def lookupIdx (idx : List (Str × List Nat)) (k : Str) : List Nat :=
  match idx.find? (fun e => e.1 == k) with
  | some e => e.2
  | none => []

/-! ### The matching environment -/

/-- All inputs of the matching portion of `AccountScrubber.run`: the
external fuzzy-ratio functions, the TF-IDF cosine similarity oracle
(`sim q i` is the similarity of query search string `q` against account
row position `i`), the details-log formatter (kept abstract), the
configured weights and penalties, and the three normalized frames.
The `minimum_final_score` threshold is passed separately so that its role
can be isolated. -/
structure Env where
  fr : Str → Str → ℕ
  tsr : Str → Str → ℕ
  sim : Str → ℕ → ℚ
  details : SRow → ARow → Str
  w : Weights
  pen : Pen
  scrub : List SRow
  accounts : List ARow
  contacts : List CRow
  hasEmailCols : Bool

def postalIdx (env : Env) : List (Str × List Nat) :=
  buildIndex env.accounts (fun a => a.normalizedpostal)

def stateIdx (env : Env) : List (Str × List Nat) :=
  buildIndex env.accounts (fun a => a.state)

def domainIdx (env : Env) : List (Str × List Nat) :=
  buildIndex env.accounts (fun a => a.normalizeddomain)

def phoneIdx (env : Env) : List (Str × List Nat) :=
  buildIndex env.accounts (fun a => a.normalizedphone)

/-- Candidate selection (`scrubbing.py` lines 329-339), translated `if` by
`if`: try the postal key, then (when still empty) the state key, the domain
key, the phone key, and fall back to all account positions. -/
def candidateIndices (env : Env) (q : SRow) : List Nat :=
  let c1 := if q.normalizedpostal ≠ [] then lookupIdx (postalIdx env) q.normalizedpostal else []
  let c2 := if c1 = [] ∧ q.state ≠ [] then lookupIdx (stateIdx env) q.state else c1
  let c3 := if c2 = [] ∧ q.normalizeddomain ≠ [] then lookupIdx (domainIdx env) q.normalizeddomain else c2
  let c4 := if c3 = [] ∧ q.normalizedphone ≠ [] then lookupIdx (phoneIdx env) q.normalizedphone else c3
  if c4 = [] then List.range env.accounts.length else c4

/-- The candidate-selection policy as the specification words it: attempt
the four block keys in order and take the first non-empty result, falling
back to all accounts. -/
def candidateIndicesSpec (env : Env) (q : SRow) : List Nat :=
  (([lookupIdx (postalIdx env) q.normalizedpostal,
     lookupIdx (stateIdx env) q.state,
     lookupIdx (domainIdx env) q.normalizeddomain,
     lookupIdx (phoneIdx env) q.normalizedphone].find?
      (fun l => !l.isEmpty)).getD (List.range env.accounts.length))

/-! ### Match records and the three stages -/

/-- One emitted match record; only the fields the claims are about are
kept.  `matched_accountid` is `none` when the (left-)joined account is
missing (pandas `NaN`). -/
structure Match where
  original_index : Nat
  matched_accountid : Option Str
  match_score : ℚ
  match_type : Str
deriving DecidableEq

/-- The record emitted for one Stage-1 email hit (`scrubbing.py` lines
290-306): `match_score = 100`, `match_type = "Email Match"`, and
`matched_accountid` is the `account_id` of the account left-joined on
`accountid == account_id` (missing account ⇒ `NaN`). -/
def mkEmailMatch (env : Env) (q : SRow) (c : CRow) : Match :=
  { original_index := q.idx
    matched_accountid :=
      (env.accounts.find? (fun a => a.account_id == c.accountid)).map
        (fun a => a.account_id)
    match_score := 100
    match_type := ofString "Email Match" }

/-- Stage 1, the email pivot (`scrubbing.py` lines 279-308): when both
sides carry an `email` column, both email columns are passed through
`astype(str)` (rendering `NaN` as `"nan"`), the contacts are deduplicated
on email keeping the first occurrence (the preceding
`dropna(subset=["email"])` is a no-op after `astype(str)`), and each input
row is inner-joined against them on string equality of emails. -/
def stage1Matches (env : Env) : List Match :=
  if env.hasEmailCols then
    env.scrub.filterMap (fun r =>
      ((dedupBy (fun c => cellStr c.email) env.contacts).find?
          (fun c => cellStr c.email == cellStr r.email)).map
        (fun c => mkEmailMatch env r c))
  else []

/-- `ids_to_skip` / `fuzzy_search_df` (`scrubbing.py` lines 310-311):
Stage 2 runs over the rows whose `original_index` was not matched by
Stage 1. -/
def fuzzyRows (env : Env) : List SRow :=
  env.scrub.filter (fun r =>
    decide (r.idx ∉ (stage1Matches env).map Match.original_index))

/-- Ordered insertion into an ascending list. -/
def insertAsc (le : Nat → Nat → Bool) (x : Nat) : List Nat → List Nat
  | [] => [x]
  | y :: ys => if le x y then x :: y :: ys else y :: insertAsc le x ys

/-- Insertion sort (a stable comparison sort). -/
def sortAsc (le : Nat → Nat → Bool) : List Nat → List Nat
  | [] => []
  | x :: xs => insertAsc le x (sortAsc le xs)

/-- `np.argsort` (ascending) on the similarity list, modelled by a
deterministic stable comparison sort of the positions (the tie order of
numpy's default quicksort is unspecified; any fixed order is a valid
model). -/
def argsortAsc (sims : List ℚ) : List Nat :=
  sortAsc (fun i j => decide (sims.getD i 0 ≤ sims.getD j 0))
    (List.range sims.length)

/-- `np.argsort(similarities)[-25:][::-1]` (`scrubbing.py` line 344): the
last 25 positions of the ascending sort (the highest similarities), in
descending order. -/
def topLocal (sims : List ℚ) : List Nat :=
  ((argsortAsc sims).drop (sims.length - 25)).reverse

/-- The record built for the running best fuzzy candidate (`scrubbing.py`
lines 354-365); the details CSV is produced by the abstract formatter. -/
def mkFuzzyMatch (env : Env) (q : SRow) (i : Nat) (s : ℚ) : Match :=
  { original_index := q.idx
    matched_accountid := some (env.accounts.getD i defaultARow).account_id
    match_score := s
    match_type := env.details q (env.accounts.getD i defaultARow) }

/-- The scored top-25 candidates of one Stage-2 row, in scan order: for
each local position of `topLocal`, the global account position, the built
match record and the candidate's score. -/
def scoredPairs (env : Env) (q : SRow) : List (Match × ℚ) :=
  let cand := candidateIndices env q
  let sims := cand.map (env.sim (rowSearchString q))
  (topLocal sims).map (fun li =>
    let i := cand.getD li 0
    let s := scoreCandidate env.fr env.tsr env.w env.pen q
      (env.accounts.getD i defaultARow)
    (mkFuzzyMatch env q i s, s))

/-- The scan of `scrubbing.py` lines 345-365: `best_match = None`,
`highest_score = -1`, and each candidate replaces the running best only
when its score is strictly greater. -/
def bestScan (l : List (Match × ℚ)) : Option Match × ℚ :=
  l.foldl (fun acc p => if p.2 > acc.2 then (some p.1, p.2) else acc)
    ((none : Option Match), (-1 : ℚ))

/-- The candidate scan of one Stage-2 row (threshold not yet applied). -/
def stage2Scan (env : Env) (q : SRow) : Option Match × ℚ :=
  bestScan (scoredPairs env q)

/-- One Stage-2 row (`scrubbing.py` lines 317-368): rows with an empty
search string are skipped (`none`); otherwise, when the scanned
`highest_score` reaches the threshold, `best_match` is appended — which is
`None` (`some none`) when no candidate scored above the `-1` sentinel. -/
def stage2Row (env : Env) (T : ℚ) (q : SRow) : Option (Option Match) :=
  if rowSearchString q = [] then none
  else if (stage2Scan env q).2 ≥ T then some (stage2Scan env q).1 else none

/-- `all_fuzzy_matches` (`scrubbing.py` lines 315-368). -/
def stage2Matches (env : Env) (T : ℚ) : List (Option Match) :=
  (fuzzyRows env).filterMap (stage2Row env T)

/-- `matched_indices` (`scrubbing.py` line 373): the indices matched by
Stages 1 and 2 (an appended `None` record carries no `original_index` and
marks nothing). -/
def matched12 (env : Env) (T : ℚ) : List Nat :=
  (stage1Matches env).map Match.original_index
    ++ ((stage2Matches env T).filterMap id).map Match.original_index

/-- `unmatched_df` (`scrubbing.py` line 374): the Stage-3 domain. -/
def unmatchedRows (env : Env) (T : ℚ) : List SRow :=
  env.scrub.filter (fun r => decide (r.idx ∉ matched12 env T))

/-- `ccn_lookup` (`scrubbing.py` line 376): `dropna` is a no-op
(`normalizedccn` is always a string, the absent value being `""`), so the
table is just the first-wins deduplication on the key — including the
empty key. -/
def ccnTable (env : Env) : List ARow :=
  dedupBy (fun a => a.normalizedccn) env.accounts

/-- `dhc_lookup` (`scrubbing.py` line 377). -/
def dhcTable (env : Env) : List ARow :=
  dedupBy (fun a => a.normalizeddhc) env.accounts

/-- The lookup tables as the specification words them: empty keys dropped
before deduplication. -/
def ccnTableSpec (env : Env) : List ARow :=
  dedupBy (fun a => a.normalizedccn)
    (env.accounts.filter (fun a => !a.normalizedccn.isEmpty))

/-- The record emitted for one Stage-3 hit (`scrubbing.py` lines
392-404). -/
def mkIdMatch (q : SRow) (a : ARow) (ty : Str) : Match :=
  { original_index := q.idx
    matched_accountid := some a.account_id
    match_score := 99
    match_type := ty }

/-- One Stage-3 row (`scrubbing.py` lines 381-404): the CCN lookup is
consulted first (guarded by the row's key being truthy), then the DHC
lookup.  (`not lookup.empty` in the source is subsumed: a lookup in an
empty table finds nothing.) -/
def stage3Row (env : Env) (q : SRow) : Option Match :=
  match (if q.normalizedccn ≠ [] then
      (ccnTable env).find? (fun a => a.normalizedccn == q.normalizedccn)
    else none) with
  | some a => some (mkIdMatch q a (ofString "CCN Match"))
  | none =>
    match (if q.normalizeddhc ≠ [] then
        (dhcTable env).find? (fun a => a.normalizeddhc == q.normalizeddhc)
      else none) with
    | some a => some (mkIdMatch q a (ofString "DHC Match"))
    | none => none

/-- `deterministic_matches` (`scrubbing.py` lines 379-404). -/
def stage3Matches (env : Env) (T : ℚ) : List Match :=
  (unmatchedRows env T).filterMap (stage3Row env)

/-- `final_matches` (`scrubbing.py` lines 427-434): the concatenation of
the three stages' records (a Stage-2 `None` row carries no index and joins
to nothing downstream). -/
def finalMatches (env : Env) (T : ℚ) : List Match :=
  stage1Matches env ++ (stage2Matches env T).filterMap id ++ stage3Matches env T

/-- The matched `original_index` values of the whole run. -/
def matchedIdx (env : Env) (T : ℚ) : List Nat :=
  (finalMatches env T).map Match.original_index

/-- `pd.merge(original_scrub_df, final_matches, on="original_index",
how="left")` (`scrubbing.py` line 436): every input row is kept, paired
with each of its match records, or with `none` when it has none. -/
def leftMerge (scrub : List SRow) (ms : List Match) : List (SRow × Option Match) :=
  scrub.flatMap (fun r =>
    match ms.filter (fun m => m.original_index == r.idx) with
    | [] => [(r, none)]
    | l => l.map (fun m => (r, some m)))

/-- The `original_index` values present in the `_OUTPUT` stream
(`scrubbing.py` lines 436-456). -/
def outputIdx (env : Env) (T : ℚ) : List Nat :=
  (leftMerge env.scrub (finalMatches env T)).map (fun p => p.1.idx)

/-- The `original_index` values present in the `_MANUAL_REVIEW` stream
(`scrubbing.py` lines 450-458): the input rows whose index is matched by
no stage. -/
def manualIdx (env : Env) (T : ℚ) : List Nat :=
  (env.scrub.filter (fun r => decide (r.idx ∉ matchedIdx env T))).map SRow.idx

/-! ### Specification-side descriptions of the Stage-2 scan -/

/-- The first element of the list attaining the maximal score: later
elements replace the running result only when strictly greater, so ties
keep the earlier element. -/
def firstMax {α : Type} : List (α × ℚ) → Option (α × ℚ)
  | [] => none
  | p :: ps =>
    match firstMax ps with
    | none => some p
    | some q => if q.2 > p.2 then some q else some p

/-- Merging one fold step's outcome into an accumulator, used to
characterize the `best_match` fold. -/
def mergeAcc {α : Type} (acc : Option α × ℚ) : Option (α × ℚ) → Option α × ℚ
  | none => acc
  | some p => if p.2 > acc.2 then (some p.1, p.2) else acc

/-! ### Concrete inputs used by the counterexamples and witnesses -/

def zeroFr : Str → Str → ℕ := fun _ _ => 0

def zeroSim : Str → ℕ → ℚ := fun _ _ => 0

def noDetails : SRow → ARow → Str := fun _ _ => []

def zeroW : Weights := ⟨0, 0, 0, 0, 0, 0, 0⟩

def zeroCW : CWeights := ⟨0, 0, 0, 0⟩

/-- A penalty configuration with `location_mismatch_penalty = 2`. -/
def locPen : Pen := ⟨2, 0⟩

/-- An all-empty input row (`original_index = 0`, `NaN` email). -/
def blankSRow : SRow := ⟨0, none, [], [], [], [], [], [], [], [], [], [], [], []⟩

/-- A run with a single all-empty input row and no reference data: the row
is matched by no stage. -/
def envC1 : Env :=
  ⟨zeroFr, zeroFr, zeroSim, noDetails, zeroW, locPen, [blankSRow], [], [], false⟩

/-- A contact whose email cell is absent (`NaN`). -/
def contactNaN : CRow := ⟨ofString "c1", none, ofString "A1", [], [], []⟩

/-- A run whose only input row and only contact both have an absent
email. -/
def envC2 : Env :=
  ⟨zeroFr, zeroFr, zeroSim, noDetails, zeroW, locPen, [blankSRow], [], [contactNaN], true⟩

/-- An input row with an email and otherwise empty fields. -/
def rowEmail : SRow :=
  ⟨0, some (ofString "jane@acme.com"), [], [], [], [], [], [], [], [], [], [], [], []⟩

def contactEmail : CRow :=
  ⟨ofString "c1", some (ofString "jane@acme.com"), ofString "A001", [], [], []⟩

def accountA1 : ARow :=
  ⟨ofString "A001", ofString "Acme", [], [], [], [], [], [], [], [], [], [], [], []⟩

/-- A run with one input row matched by the Stage-1 email pivot. -/
def envC4 : Env :=
  ⟨zeroFr, zeroFr, zeroSim, noDetails, zeroW, locPen, [rowEmail], [accountA1], [contactEmail], true⟩

/-- A run identical in shape to `envC4`, used for the email-pivot claim. -/
def envC6 : Env :=
  ⟨zeroFr, zeroFr, zeroSim, noDetails, zeroW, locPen, [rowEmail], [accountA1], [contactEmail], true⟩

/-- A Stage-2 query row: non-empty company (hence a non-empty search
string), country `us`. -/
def qC5 : SRow :=
  ⟨0, none, ofString "x", [], [], [], [], [], [], [], ofString "us", [], [], []⟩

/-- An account with a conflicting country `ca`: its only score contribution
is the location-mismatch penalty. -/
def aC5 : ARow :=
  ⟨ofString "A1", ofString "Acme", [], [], [], [], [], [], [], [], ofString "ca", [], [], []⟩

/-- A run whose single Stage-2 candidate scores `-2`, below the `-1` scan
sentinel. -/
def envC5 : Env :=
  ⟨zeroFr, zeroFr, zeroSim, noDetails, zeroW, locPen, [qC5], [aC5], [], false⟩

/-- An account agreeing with `qC5` on nothing (score `0`). -/
def aC5w : ARow :=
  ⟨ofString "A1", ofString "Acme", [], [], [], [], [], [], [], [], [], [], [], []⟩

def envC5w : Env :=
  ⟨zeroFr, zeroFr, zeroSim, noDetails, zeroW, locPen, [qC5], [aC5w], [], false⟩

/-- The single scored pair produced by the Stage-2 scan in `envC5w`. -/
def pC5w : Match × ℚ :=
  (mkFuzzyMatch envC5w qC5 0 (scoreCandidate zeroFr zeroFr zeroW locPen qC5 aC5w),
    scoreCandidate zeroFr zeroFr zeroW locPen qC5 aC5w)

/-- An account carrying only a normalized postal code. -/
def aC7 : ARow :=
  ⟨ofString "A1", [], [], [], [], [], [], ofString "11111", [], [], [], [], [], []⟩

def envC7 : Env :=
  ⟨zeroFr, zeroFr, zeroSim, noDetails, zeroW, locPen, [], [aC7], [], false⟩

/-- A query row carrying only the same postal code. -/
def qC7 : SRow :=
  ⟨0, none, [], [], [], [], [], ofString "11111", [], [], [], [], [], []⟩

/-- An account whose `normalizedccn` is the canonical empty string. -/
def aC8 : ARow :=
  ⟨ofString "A1", [], [], [], [], [], [], [], [], [], [], [], [], []⟩

def envC8 : Env :=
  ⟨zeroFr, zeroFr, zeroSim, noDetails, zeroW, locPen, [], [aC8], [], false⟩

/-- An input row carrying only a normalized CCN. -/
def rowC8 : SRow :=
  ⟨0, none, [], [], [], [], [], [], [], [], [], [], ofString "12345", []⟩

/-- An account with the same CCN. -/
def aC8b : ARow :=
  ⟨ofString "A2", [], [], [], [], [], [], [], [], [], [], [], ofString "12345", []⟩

/-- A run whose single input row is matched by the Stage-3 CCN fallback. -/
def envC8b : Env :=
  ⟨zeroFr, zeroFr, zeroSim, noDetails, zeroW, locPen, [rowC8], [aC8b], [], false⟩

/-! ### Character-level and string-level helper lemmas -/

theorem lowerChar_pair {c : Char} {p : Char × Char}
    (h : upperLowerPairs.find? (fun q => q.1 == c) = some p) :
    p ∈ upperLowerPairs ∧ p.1 = c := by
  refine ⟨List.mem_of_find?_eq_some h, ?_⟩
  have := List.find?_some h
  exact beq_iff_eq.mp this

theorem upperLowerPairs_facts : ∀ p ∈ upperLowerPairs,
    upperLowerPairs.find? (fun q => q.1 == p.2) = none ∧
    isSpaceChar p.1 = false ∧ isSpaceChar p.2 = false ∧
    p.1.isDigit = false := by decide

theorem lowerChar_lowerChar (c : Char) : lowerChar (lowerChar c) = lowerChar c := by
  unfold lowerChar
  cases h : upperLowerPairs.find? (fun q => q.1 == c) with
  | none => rw [h]
  | some p =>
    have hm := lowerChar_pair h
    rw [(upperLowerPairs_facts p hm.1).1]

theorem isSpace_lowerChar (c : Char) : isSpaceChar (lowerChar c) = isSpaceChar c := by
  unfold lowerChar
  cases h : upperLowerPairs.find? (fun q => q.1 == c) with
  | none => rfl
  | some p =>
    have hm := lowerChar_pair h
    have hf := upperLowerPairs_facts p hm.1
    rw [hf.2.2.1, ← hm.2, hf.2.1]

theorem lowerChar_of_isDigit {c : Char} (h : c.isDigit = true) : lowerChar c = c := by
  unfold lowerChar
  cases hf : upperLowerPairs.find? (fun q => q.1 == c) with
  | none => rfl
  | some p =>
    have hm := lowerChar_pair hf
    have := (upperLowerPairs_facts p hm.1).2.2.2
    rw [hm.2] at this
    rw [this] at h
    cases h

theorem isSpaceChar_of_isDigit {c : Char} (h : c.isDigit = true) :
    isSpaceChar c = false := by
  by_contra hc
  rw [Bool.not_eq_false] at hc
  unfold isSpaceChar at hc
  simp only [Bool.or_eq_true, beq_iff_eq] at hc
  rcases hc with ((((h1 | h1) | h1) | h1) | h1) | h1 <;> subst h1 <;>
    exact absurd h (by decide)

theorem lowerStr_lowerStr (l : Str) : lowerStr (lowerStr l) = lowerStr l := by
  unfold lowerStr
  rw [List.map_map]
  exact List.map_congr_left (fun c _ => lowerChar_lowerChar c)

theorem lowerStr_of_digits {l : Str} (h : ∀ c ∈ l, c.isDigit = true) :
    lowerStr l = l :=
  calc lowerStr l = l.map id :=
        List.map_congr_left (fun c hc => lowerChar_of_isDigit (h c hc))
  _ = l := List.map_id l

theorem trimL_trimL (l : Str) : trimL (trimL l) = trimL l := by
  induction l with
  | nil => rfl
  | cons c cs ih =>
    by_cases h : isSpaceChar c = true
    · simpa [trimL, List.dropWhile_cons, h] using ih
    · simp only [Bool.not_eq_true] at h
      simp [trimL, List.dropWhile_cons, h]

theorem trimR_cons (c : Char) (cs : Str) :
    trimR (c :: cs) = match trimR cs with
      | [] => if isSpaceChar c then [] else [c]
      | r => c :: r := rfl

theorem trimR_trimR (l : Str) : trimR (trimR l) = trimR l := by
  induction l with
  | nil => rfl
  | cons c cs ih =>
    cases h : trimR cs with
    | nil =>
      by_cases hc : isSpaceChar c = true
      · simp [trimR, h, hc]
      · simp only [Bool.not_eq_true] at hc
        simp [trimR, h, hc]
    | cons x xs =>
      have h2 : trimR (x :: xs) = x :: xs := by
        rw [← h, ih, h]
      have h3 : trimR (c :: cs) = c :: x :: xs := by rw [trimR_cons, h]
      rw [h3, trimR_cons, h2]

theorem trimL_trimR_trimL (l : Str) : trimL (trimR (trimL l)) = trimR (trimL l) := by
  induction l with
  | nil => rfl
  | cons c cs ih =>
    by_cases h : isSpaceChar c = true
    · simpa [trimL, List.dropWhile_cons, h] using ih
    · simp only [Bool.not_eq_true] at h
      simp only [trimL, List.dropWhile_cons, h, if_neg]
      cases h2 : trimR cs with
      | nil => simp [trimR, h2, h, trimL, List.dropWhile_cons]
      | cons x xs => simp [trimR, h2, trimL, List.dropWhile_cons, h]

theorem trimStr_trimStr (l : Str) : trimStr (trimStr l) = trimStr l := by
  unfold trimStr
  rw [trimL_trimR_trimL, trimR_trimR]

theorem trimL_lowerStr (l : Str) : trimL (lowerStr l) = lowerStr (trimL l) := by
  unfold trimL lowerStr
  rw [List.dropWhile_map]
  have hfun : isSpaceChar ∘ lowerChar = isSpaceChar := funext isSpace_lowerChar
  rw [hfun]

theorem trimR_lowerStr (l : Str) : trimR (lowerStr l) = lowerStr (trimR l) := by
  induction l with
  | nil => rfl
  | cons c cs ih =>
    show trimR (lowerChar c :: lowerStr cs) = lowerStr (trimR (c :: cs))
    cases h : trimR cs with
    | nil =>
      have hl : trimR (lowerStr cs) = [] := by
        rw [ih, h]; rfl
      simp only [trimR, hl, h, isSpace_lowerChar]
      by_cases hc : isSpaceChar c = true
      · simp [hc, lowerStr]
      · simp only [Bool.not_eq_true] at hc
        simp [hc, lowerStr]
    | cons x xs =>
      have hl : trimR (lowerStr cs) = lowerChar x :: lowerStr xs := by
        rw [ih, h]; rfl
      simp only [trimR, hl, h]
      rfl

theorem trimStr_lowerStr (l : Str) : trimStr (lowerStr l) = lowerStr (trimStr l) := by
  unfold trimStr
  rw [trimL_lowerStr, trimR_lowerStr]

theorem lowerTrim_idem (s : Str) :
    lowerStr (trimStr (lowerStr (trimStr s))) = lowerStr (trimStr s) := by
  rw [trimStr_lowerStr, lowerStr_lowerStr, trimStr_trimStr]

theorem trimLower_idem (s : Str) :
    trimStr (lowerStr (trimStr (lowerStr s))) = trimStr (lowerStr s) := by
  rw [trimStr_lowerStr, trimStr_trimStr, ← trimStr_lowerStr, lowerStr_lowerStr]

theorem trimL_of_no_space {l : Str} (h : ∀ c ∈ l, isSpaceChar c = false) :
    trimL l = l := by
  cases l with
  | nil => rfl
  | cons c cs => simp [trimL, List.dropWhile_cons, h c (List.mem_cons_self c cs)]

theorem trimR_of_no_space {l : Str} (h : ∀ c ∈ l, isSpaceChar c = false) :
    trimR l = l := by
  induction l with
  | nil => rfl
  | cons c cs ih =>
    have hcs : trimR cs = cs := ih (fun x hx => h x (List.mem_cons_of_mem c hx))
    cases h2 : cs with
    | nil =>
      simp [trimR, h2, h c (List.mem_cons_self c cs)]
    | cons x xs =>
      rw [h2] at hcs
      rw [trimR_cons, hcs]

theorem trimStr_of_no_space {l : Str} (h : ∀ c ∈ l, isSpaceChar c = false) :
    trimStr l = l := by
  unfold trimStr
  rw [trimL_of_no_space h, trimR_of_no_space h]

/-! ### Idempotence (and failures of idempotence) of the normalization rules -/

theorem cleanText_some (s : Str) :
    cleanText (some s) =
      (if trimStr (lowerStr s) ∈ junkList then [] else trimStr (lowerStr s)) := rfl

theorem cleanText_idem (c : Option Str) :
    cleanText (some (cleanText c)) = cleanText c := by
  by_cases hj : trimStr (lowerStr (cellEmpty c)) ∈ junkList
  · have h1 : cleanText c = [] := by
      simp only [cleanText]; rw [if_pos hj]
    rw [h1]
    decide
  · have h1 : cleanText c = trimStr (lowerStr (cellEmpty c)) := by
      simp only [cleanText]; rw [if_neg hj]
    rw [h1, cleanText_some, trimLower_idem, if_neg hj]

theorem textRule_idem (c : Option Str) :
    textRule (some (textRule c)) = textRule c := cleanText_idem c

theorem phoneCell_some (d : Str) :
    phoneCell (some d) =
      (if (d.filter Char.isDigit).isEmpty then none
       else some (d.filter Char.isDigit)) := rfl

theorem phoneCell_idem (c : Option Str) : phoneCell (phoneCell c) = phoneCell c := by
  by_cases h : ((cellStr c).filter Char.isDigit).isEmpty = true
  · have he : phoneCell c = none := by
      simp only [phoneCell]; rw [if_pos h]
    rw [he]
    decide
  · have he : phoneCell c = some ((cellStr c).filter Char.isDigit) := by
      simp only [phoneCell]; rw [if_neg h]
    rw [he, phoneCell_some, List.filter_filter]
    have hfun : (fun a => Char.isDigit a && Char.isDigit a) = Char.isDigit := by
      funext a; exact Bool.and_self _
    rw [hfun, if_neg h]

theorem normalizePhoneCol_idem (col : List (Option Str)) :
    normalizePhoneCol (normalizePhoneCol col) = normalizePhoneCol col := by
  unfold normalizePhoneCol
  rw [List.map_map]
  exact List.map_congr_left (fun c _ => phoneCell_idem c)

theorem postalRule_some (s : Str) :
    postalRule (some s) =
      (if 5 ≤ (s.filter Char.isDigit).length then
        zfill 5 ((s.filter Char.isDigit).take 5)
       else []) := rfl

theorem postalRule_idem (c : Option Str) :
    postalRule (some (postalRule c)) = postalRule c := by
  cases c with
  | none => decide
  | some s =>
    by_cases h : 5 ≤ (s.filter Char.isDigit).length
    · have he : postalRule (some s) = zfill 5 ((s.filter Char.isDigit).take 5) := by
        rw [postalRule_some, if_pos h]
      have hlen : ((s.filter Char.isDigit).take 5).length = 5 := by
        rw [List.length_take]; omega
      have hz : zfill 5 ((s.filter Char.isDigit).take 5) = (s.filter Char.isDigit).take 5 := by
        unfold zfill; rw [if_pos (by omega)]
      have hdig : ∀ x ∈ (s.filter Char.isDigit).take 5, x.isDigit = true := by
        intro x hx
        exact (List.mem_filter.mp (List.mem_of_mem_take hx)).2
      rw [he, hz, postalRule_some, List.filter_eq_self.mpr hdig,
        if_pos (by omega), List.take_of_length_le (by omega)]
      exact hz
    · have he : postalRule (some s) = [] := by
        rw [postalRule_some, if_neg h]
      rw [he]
      decide

theorem stateValues_facts :
    ∀ v ∈ stateValues, lowerStr (trimStr v) = v ∧ v ≠ [] := by decide

theorem stateRule_some (s : Str) :
    stateRule (some s) =
      (if lowerStr (trimStr s) = [] then []
       else if lowerStr (trimStr s) ∈ stateValues then lowerStr (trimStr s)
       else mapGetD stateMap (lowerStr (trimStr s)) (lowerStr (trimStr s))) := rfl

theorem stateRule_idem (c : Option Str) :
    stateRule (some (stateRule c)) = stateRule c := by
  have hval : ∀ v ∈ stateValues, stateRule (some v) = v := by
    intro v hv
    obtain ⟨hfix, hne⟩ := stateValues_facts v hv
    rw [stateRule_some, hfix, if_neg hne, if_pos hv]
  cases c with
  | none => decide
  | some s =>
    by_cases h0 : lowerStr (trimStr s) = []
    · have he : stateRule (some s) = [] := by
        rw [stateRule_some, if_pos h0]
      rw [he]
      decide
    · by_cases h1 : lowerStr (trimStr s) ∈ stateValues
      · have he : stateRule (some s) = lowerStr (trimStr s) := by
          rw [stateRule_some, if_neg h0, if_pos h1]
        rw [he]
        exact hval _ h1
      · cases hf : stateMap.find? (fun p => p.1 == lowerStr (trimStr s)) with
        | some p =>
          have he : stateRule (some s) = p.2 := by
            rw [stateRule_some, if_neg h0, if_neg h1]
            unfold mapGetD
            rw [hf]
          rw [he]
          exact hval _ (List.mem_map_of_mem Prod.snd (List.mem_of_find?_eq_some hf))
        | none =>
          have he : stateRule (some s) = lowerStr (trimStr s) := by
            rw [stateRule_some, if_neg h0, if_neg h1]
            unfold mapGetD
            rw [hf]
          rw [he, stateRule_some, lowerTrim_idem, if_neg h0, if_neg h1]
          unfold mapGetD
          rw [hf]

theorem countryMap_facts : ∀ p ∈ countryMap,
    lowerStr (trimStr p.2) = p.2 ∧ p.2 ≠ [] ∧ mapGetD countryMap p.2 p.2 = p.2 := by
  decide

theorem countryRule_some (s : Str) :
    countryRule (some s) =
      (if lowerStr (trimStr s) = [] then []
       else mapGetD countryMap (lowerStr (trimStr s)) (lowerStr (trimStr s))) := rfl

theorem countryRule_idem (c : Option Str) :
    countryRule (some (countryRule c)) = countryRule c := by
  cases c with
  | none => decide
  | some s =>
    by_cases h0 : lowerStr (trimStr s) = []
    · have he : countryRule (some s) = [] := by
        rw [countryRule_some, if_pos h0]
      rw [he]
      decide
    · cases hf : countryMap.find? (fun p => p.1 == lowerStr (trimStr s)) with
      | some p =>
        have he : countryRule (some s) = p.2 := by
          rw [countryRule_some, if_neg h0]
          unfold mapGetD
          rw [hf]
        obtain ⟨hfix, hne, hself⟩ := countryMap_facts p (List.mem_of_find?_eq_some hf)
        rw [he, countryRule_some, hfix, if_neg hne, hself]
      | none =>
        have he : countryRule (some s) = lowerStr (trimStr s) := by
          rw [countryRule_some, if_neg h0]
          unfold mapGetD
          rw [hf]
        rw [he, countryRule_some, lowerTrim_idem, if_neg h0]
        unfold mapGetD
        rw [hf]

theorem ccnRule_fixed {d : Str} (hdig : ∀ x ∈ d, x.isDigit = true)
    (hlen : d.length = 5 ∨ d.length = 6) : ccnRule (some d) = d := by
  have h2 : trimStr d = d :=
    trimStr_of_no_space (fun x hx => isSpaceChar_of_isDigit (hdig x hx))
  have h3 : lowerStr d = d := lowerStr_of_digits hdig
  have h4 : d.filter Char.isDigit = d := List.filter_eq_self.mpr hdig
  simp only [ccnRule, cellEmpty]
  rw [h2, h3, h4, if_pos hlen]

theorem ccnRule_idem (c : Option Str) :
    ccnRule (some (ccnRule c)) = ccnRule c := by
  by_cases h : (((lowerStr (trimStr (cellEmpty c))).filter Char.isDigit).length = 5 ∨
      ((lowerStr (trimStr (cellEmpty c))).filter Char.isDigit).length = 6)
  · have he : ccnRule c = (lowerStr (trimStr (cellEmpty c))).filter Char.isDigit := by
      simp only [ccnRule]; rw [if_pos h]
    rw [he]
    exact ccnRule_fixed (fun x hx => (List.mem_filter.mp hx).2) h
  · have he : ccnRule c = [] := by
      simp only [ccnRule]; rw [if_neg h]
    rw [he]
    decide

theorem dhcRule_some (s : Str) :
    dhcRule (some s) =
      (if 5 ≤ (lowerStr (trimStr s)).length then lowerStr (trimStr s) else []) := rfl

theorem dhcRule_idem (c : Option Str) :
    dhcRule (some (dhcRule c)) = dhcRule c := by
  by_cases h : 5 ≤ (lowerStr (trimStr (cellEmpty c))).length
  · have he : dhcRule c = lowerStr (trimStr (cellEmpty c)) := by
      simp only [dhcRule]; rw [if_pos h]
    rw [he, dhcRule_some, lowerTrim_idem, if_pos h]
  · have he : dhcRule c = [] := by
      simp only [dhcRule]; rw [if_neg h]
    rw [he]
    decide

/-! ### The best-candidate scan -/

theorem firstMax_cons {α : Type} (p : α × ℚ) (ps : List (α × ℚ)) :
    firstMax (p :: ps) =
      (match firstMax ps with
       | none => some p
       | some q => if q.2 > p.2 then some q else some p) := rfl

theorem mergeAcc_none {α : Type} (acc : Option α × ℚ) : mergeAcc acc none = acc := rfl

theorem mergeAcc_pair {α : Type} (b : Option α) (hs : ℚ) (p : α × ℚ) :
    mergeAcc (b, hs) (some p) = if p.2 > hs then (some p.1, p.2) else (b, hs) := rfl

theorem firstMax_eq_none {α : Type} {l : List (α × ℚ)} :
    firstMax l = none ↔ l = [] := by
  cases l with
  | nil => simp [firstMax]
  | cons p ps =>
    rw [firstMax_cons]
    cases firstMax ps with
    | none => simp
    | some q =>
      by_cases h : q.2 > p.2 <;> simp [h]

theorem foldl_best_eq {α : Type} (l : List (α × ℚ)) (b : Option α) (hs : ℚ) :
    l.foldl (fun a p => if p.2 > a.2 then (some p.1, p.2) else a) (b, hs)
      = mergeAcc (b, hs) (firstMax l) := by
  induction l generalizing b hs with
  | nil => rfl
  | cons p ps ih =>
    show ps.foldl _ (if p.2 > hs then (some p.1, p.2) else (b, hs)) = _
    by_cases h2 : p.2 > hs
    · rw [if_pos h2, ih]
      cases hm : firstMax ps with
      | none =>
        have hf : firstMax (p :: ps) = some p := by rw [firstMax_cons, hm]
        rw [hf, mergeAcc_none, mergeAcc_pair, if_pos h2]
      | some q =>
        have hf : firstMax (p :: ps) = if q.2 > p.2 then some q else some p := by
          rw [firstMax_cons, hm]
        rw [hf, apply_ite (mergeAcc (b, hs)), mergeAcc_pair, mergeAcc_pair,
          mergeAcc_pair]
        by_cases h1 : q.2 > p.2
        · rw [if_pos h1, if_pos h1, if_pos (lt_trans h2 h1)]
        · rw [if_neg h1, if_neg h1, if_pos h2]
    · rw [if_neg h2, ih]
      cases hm : firstMax ps with
      | none =>
        have hf : firstMax (p :: ps) = some p := by rw [firstMax_cons, hm]
        rw [hf, mergeAcc_pair, if_neg h2]
        exact mergeAcc_none _
      | some q =>
        have hf : firstMax (p :: ps) = if q.2 > p.2 then some q else some p := by
          rw [firstMax_cons, hm]
        rw [hf, apply_ite (mergeAcc (b, hs)), mergeAcc_pair, mergeAcc_pair]
        by_cases h1 : q.2 > p.2
        · rw [if_pos h1]
        · rw [if_neg h1, if_neg h2]
          rw [if_neg (by
            rw [not_lt] at h1 h2 ⊢
            exact le_trans h1 h2)]

theorem bestScan_eq {l : List (Match × ℚ)} :
    bestScan l = mergeAcc ((none : Option Match), (-1 : ℚ)) (firstMax l) :=
  foldl_best_eq l none (-1)

theorem firstMax_le {α : Type} :
    ∀ {l : List (α × ℚ)} {p}, firstMax l = some p → ∀ x ∈ l, x.2 ≤ p.2 := by
  intro l
  induction l with
  | nil => intro p h; cases h
  | cons q ps ih =>
    intro p h x hx
    rw [firstMax_cons] at h
    cases hm : firstMax ps with
    | none =>
      have hps : ps = [] := firstMax_eq_none.mp hm
      rw [hm] at h
      simp only at h
      cases h
      rcases List.mem_cons.mp hx with rfl | hx2
      · exact le_refl _
      · rw [hps] at hx2; cases hx2
    | some m =>
      rw [hm] at h
      simp only at h
      by_cases h1 : m.2 > q.2
      · rw [if_pos h1] at h
        cases h
        rcases List.mem_cons.mp hx with rfl | hx2
        · exact le_of_lt h1
        · exact ih hm x hx2
      · rw [if_neg h1] at h
        cases h
        rcases List.mem_cons.mp hx with rfl | hx2
        · exact le_refl _
        · exact le_trans (ih hm x hx2) (not_lt.mp h1)

theorem firstMax_first {α : Type} :
    ∀ {l : List (α × ℚ)} {p}, firstMax l = some p →
      ∃ l1 l2, l = l1 ++ p :: l2 ∧ (∀ x ∈ l1, x.2 < p.2) ∧ (∀ x ∈ l2, x.2 ≤ p.2) := by
  intro l
  induction l with
  | nil => intro p h; cases h
  | cons q ps ih =>
    intro p h
    rw [firstMax_cons] at h
    cases hm : firstMax ps with
    | none =>
      have hps : ps = [] := firstMax_eq_none.mp hm
      rw [hm] at h
      simp only at h
      cases h
      exact ⟨[], ps, rfl, fun x hx => absurd hx (List.not_mem_nil x),
        fun x hx => by rw [hps] at hx; cases hx⟩
    | some m =>
      rw [hm] at h
      simp only at h
      by_cases h1 : m.2 > q.2
      · rw [if_pos h1] at h
        cases h
        obtain ⟨l1, l2, heq, hlt, hle⟩ := ih hm
        refine ⟨q :: l1, l2, by rw [heq]; rfl, ?_, hle⟩
        intro x hx
        rcases List.mem_cons.mp hx with rfl | hx2
        · exact h1
        · exact hlt x hx2
      · rw [if_neg h1] at h
        cases h
        exact ⟨[], ps, rfl, fun x hx => absurd hx (List.not_mem_nil x),
          fun x hx => le_trans (firstMax_le hm x hx) (not_lt.mp h1)⟩

/-! ### First-wins deduplication -/

theorem find?_dedupByAux {α : Type} (key : α → Str) (k : Str) :
    ∀ (l : List α) (seen : List Str), k ∉ seen →
      (dedupByAux key seen l).find? (fun x => key x == k)
        = l.find? (fun x => key x == k) := by
  intro l
  induction l with
  | nil => intro seen _; rfl
  | cons c cs ih =>
    intro seen hk
    simp only [dedupByAux]
    by_cases hm : key c ∈ seen
    · rw [if_pos hm, ih seen hk]
      have hck : ¬ ((key c == k) = true) := by
        intro hb
        exact hk (beq_iff_eq.mp hb ▸ hm)
      rw [@List.find?_cons_of_neg _ (fun x => key x == k) c _ hck]
    · rw [if_neg hm]
      by_cases hc : (key c == k) = true
      · rw [@List.find?_cons_of_pos _ (fun x => key x == k) c _ hc,
          @List.find?_cons_of_pos _ (fun x => key x == k) c _ hc]
      · rw [@List.find?_cons_of_neg _ (fun x => key x == k) c _ (by simpa using hc),
          @List.find?_cons_of_neg _ (fun x => key x == k) c _ (by simpa using hc)]
        apply ih
        intro hmem
        rcases List.mem_cons.mp hmem with heq | hmem2
        · exact hc (beq_iff_eq.mpr heq.symm)
        · exact hk hmem2

theorem find?_dedupBy {α : Type} (key : α → Str) (k : Str) (l : List α) :
    (dedupBy key l).find? (fun x => key x == k) = l.find? (fun x => key x == k) :=
  find?_dedupByAux key k l [] (List.not_mem_nil k)

/-! ### The argsort model -/

theorem mem_insertAsc {le : Nat → Nat → Bool} {x a : Nat} :
    ∀ {l : List Nat}, a ∈ insertAsc le x l ↔ a = x ∨ a ∈ l := by
  intro l
  induction l with
  | nil => simp [insertAsc]
  | cons y ys ih =>
    simp only [insertAsc]
    by_cases h : le x y = true
    · rw [if_pos h]
      simp [List.mem_cons]
    · rw [if_neg h]
      simp only [List.mem_cons, ih]
      tauto

theorem mem_sortAsc {le : Nat → Nat → Bool} {a : Nat} :
    ∀ {l : List Nat}, a ∈ sortAsc le l ↔ a ∈ l := by
  intro l
  induction l with
  | nil => simp [sortAsc]
  | cons x xs ih =>
    simp only [sortAsc, mem_insertAsc, ih, List.mem_cons]

theorem pairwise_insertAsc {le : Nat → Nat → Bool}
    (htot : ∀ a b, le a b = true ∨ le b a = true)
    (htrans : ∀ a b c, le a b = true → le b c = true → le a c = true)
    (x : Nat) :
    ∀ {l : List Nat}, l.Pairwise (fun a b => le a b = true) →
      (insertAsc le x l).Pairwise (fun a b => le a b = true) := by
  intro l
  induction l with
  | nil =>
    intro _
    simp [insertAsc]
  | cons y ys ih =>
    intro h
    obtain ⟨hy, hys⟩ := List.pairwise_cons.mp h
    simp only [insertAsc]
    by_cases hxy : le x y = true
    · rw [if_pos hxy]
      refine List.Pairwise.cons ?_ h
      intro z hz
      rcases List.mem_cons.mp hz with rfl | hz2
      · exact hxy
      · exact htrans x y z hxy (hy z hz2)
    · rw [if_neg hxy]
      refine List.Pairwise.cons ?_ (ih hys)
      intro z hz
      rcases mem_insertAsc.mp hz with rfl | hz2
      · rcases htot z y with hc | hc
        · exact absurd hc hxy
        · exact hc
      · exact hy z hz2

theorem sorted_sortAsc {le : Nat → Nat → Bool}
    (htot : ∀ a b, le a b = true ∨ le b a = true)
    (htrans : ∀ a b c, le a b = true → le b c = true → le a c = true) :
    ∀ l : List Nat, (sortAsc le l).Pairwise (fun a b => le a b = true) := by
  intro l
  induction l with
  | nil => exact List.Pairwise.nil
  | cons x xs ih => exact pairwise_insertAsc htot htrans x ih

/-- The selected `[-25:]` block of the argsort really holds the highest
similarities: any unselected position has similarity at most that of any
selected one. -/
theorem topLocal_top (sims : List ℚ) (j : Nat) (hj : j < sims.length)
    (hnot : j ∉ topLocal sims) (i : Nat) (hi : i ∈ topLocal sims) :
    sims.getD j 0 ≤ sims.getD i 0 := by
  have htot : ∀ a b : Nat,
      (decide (sims.getD a 0 ≤ sims.getD b 0)) = true ∨
      (decide (sims.getD b 0 ≤ sims.getD a 0)) = true := by
    intro a b
    rcases le_total (sims.getD a 0) (sims.getD b 0) with h | h
    · exact Or.inl (decide_eq_true h)
    · exact Or.inr (decide_eq_true h)
  have htrans : ∀ a b c : Nat,
      (decide (sims.getD a 0 ≤ sims.getD b 0)) = true →
      (decide (sims.getD b 0 ≤ sims.getD c 0)) = true →
      (decide (sims.getD a 0 ≤ sims.getD c 0)) = true := by
    intro a b c h1 h2
    exact decide_eq_true (le_trans (of_decide_eq_true h1) (of_decide_eq_true h2))
  have hsorted := sorted_sortAsc htot htrans (List.range sims.length)
  have hidrop : i ∈ (argsortAsc sims).drop (sims.length - 25) := by
    unfold topLocal at hi
    exact List.mem_reverse.mp hi
  have hjs : j ∈ argsortAsc sims := by
    unfold argsortAsc
    exact mem_sortAsc.mpr (List.mem_range.mpr hj)
  have hjtake : j ∈ (argsortAsc sims).take (sims.length - 25) := by
    have hsplit : (argsortAsc sims).take (sims.length - 25)
        ++ (argsortAsc sims).drop (sims.length - 25) = argsortAsc sims :=
      List.take_append_drop _ _
    rw [← hsplit] at hjs
    rcases List.mem_append.mp hjs with h | h
    · exact h
    · exact absurd (List.mem_reverse.mpr h) hnot
  have hpw : ((argsortAsc sims).take (sims.length - 25)
      ++ (argsortAsc sims).drop (sims.length - 25)).Pairwise
        (fun a b => (decide (sims.getD a 0 ≤ sims.getD b 0)) = true) := by
    rw [List.take_append_drop]
    exact hsorted
  exact of_decide_eq_true ((List.pairwise_append.mp hpw).2.2 j hjtake i hidrop)

/-! ### Stage-level helper lemmas -/

theorem stage2Row_eq_some {env : Env} {T : ℚ} {q : SRow} {ob : Option Match}
    (h : stage2Row env T q = some ob) :
    rowSearchString q ≠ [] ∧ (stage2Scan env q).2 ≥ T ∧ (stage2Scan env q).1 = ob := by
  unfold stage2Row at h
  by_cases hs : rowSearchString q = []
  · rw [if_pos hs] at h; cases h
  · rw [if_neg hs] at h
    by_cases ht : (stage2Scan env q).2 ≥ T
    · rw [if_pos ht] at h
      exact ⟨hs, ht, Option.some.inj h⟩
    · rw [if_neg ht] at h; cases h

theorem stage2Row_mono {env : Env} {T1 T2 : ℚ} {q : SRow} {ob : Option Match}
    (h : T1 ≤ T2) (h2 : stage2Row env T2 q = some ob) :
    stage2Row env T1 q = some ob := by
  obtain ⟨hs, ht, hb⟩ := stage2Row_eq_some h2
  unfold stage2Row
  rw [if_neg hs, if_pos (le_trans h ht), hb]

theorem stage3Row_idx {env : Env} {q : SRow} {m : Match}
    (h : stage3Row env q = some m) : m.original_index = q.idx := by
  unfold stage3Row at h
  cases h1 : (if q.normalizedccn ≠ [] then
      (ccnTable env).find? (fun a => a.normalizedccn == q.normalizedccn)
    else none) with
  | some a =>
    rw [h1] at h
    cases h
    rfl
  | none =>
    rw [h1] at h
    cases h2 : (if q.normalizeddhc ≠ [] then
        (dhcTable env).find? (fun a => a.normalizeddhc == q.normalizeddhc)
      else none) with
    | some a =>
      rw [h2] at h
      cases h
      rfl
    | none =>
      rw [h2] at h
      cases h

/-! ### The claims -/

/-- Claim C9: for every input cell, `normalize_postal` returns the first
five digits of the cell's digit sequence when that sequence has at least
five digits, and the empty string otherwise; the result is always exactly
five digits or empty; and on the reachable branch the `.zfill(5)` padding
never changes the result. -/
theorem postal_five_digits_or_empty (c : Option Str) :
    postalRule c =
      (if 5 ≤ (digitsOfCell c).length then (digitsOfCell c).take 5 else []) ∧
    ((postalRule c).length = 5 ∨ postalRule c = []) ∧
    (postalRule c).all Char.isDigit = true ∧
    (5 ≤ (digitsOfCell c).length →
      zfill 5 ((digitsOfCell c).take 5) = (digitsOfCell c).take 5) := by
  cases c with
  | none =>
    refine ⟨rfl, Or.inr rfl, rfl, ?_⟩
    intro h
    simp [digitsOfCell] at h
  | some s =>
    have hd : digitsOfCell (some s) = s.filter Char.isDigit := rfl
    by_cases h : 5 ≤ (s.filter Char.isDigit).length
    · have hlen : ((s.filter Char.isDigit).take 5).length = 5 := by
        rw [List.length_take]; omega
      have hz : zfill 5 ((s.filter Char.isDigit).take 5)
          = (s.filter Char.isDigit).take 5 := by
        unfold zfill; rw [if_pos (by omega)]
      refine ⟨?_, ?_, ?_, ?_⟩
      · rw [postalRule_some, hd, if_pos h, if_pos h, hz]
      · left
        rw [postalRule_some, if_pos h, hz, hlen]
      · rw [postalRule_some, if_pos h, hz, List.all_eq_true]
        intro x hx
        exact (List.mem_filter.mp (List.mem_of_mem_take hx)).2
      · intro _
        rw [hd]
        exact hz
    · refine ⟨?_, Or.inr ?_, ?_, ?_⟩
      · rw [postalRule_some, hd, if_neg h, if_neg h]
      · rw [postalRule_some, if_neg h]
      · rw [postalRule_some, if_neg h]; rfl
      · intro hcon
        rw [hd] at hcon
        exact absurd hcon h

theorem postal_five_digits_or_empty_witness :
    postalRule (some (ofString "12345-6789")) =
      (if 5 ≤ (digitsOfCell (some (ofString "12345-6789"))).length
       then (digitsOfCell (some (ofString "12345-6789"))).take 5 else []) ∧
    ((postalRule (some (ofString "12345-6789"))).length = 5 ∨
      postalRule (some (ofString "12345-6789")) = []) ∧
    (postalRule (some (ofString "12345-6789"))).all Char.isDigit = true ∧
    (5 ≤ (digitsOfCell (some (ofString "12345-6789"))).length →
      zfill 5 ((digitsOfCell (some (ofString "12345-6789"))).take 5)
        = (digitsOfCell (some (ofString "12345-6789"))).take 5) :=
  postal_five_digits_or_empty (some (ofString "12345-6789"))

/-- Claim C10 (code evaluated at the failing input): a phone cell with no
digits is dropped by `extractall`, and the index-aligned column assignment
leaves `NaN` (`none`) for that row — not the canonical empty string that
the specification's contract (`specPhoneCol`) produces. -/
theorem phone_digitless_row_yields_nan :
    normalizePhoneCol [some (ofString "abc")] = [none] ∧
    specPhoneCol [some (ofString "abc")] = [some []] := by decide

/-- Claim C3 counterexample: the company rule is not idempotent.  The
input "c o" normalizes to "co" (its single-letter tokens are no corporate
suffixes, and the final step removes the space), but a second application
deletes "co" as a whole-word corporate suffix, yielding "". -/
theorem company_rule_not_idempotent :
    companyRule (some (companyRule (some (ofString "c o"))))
      ≠ companyRule (some (ofString "c o")) := by decide

/-- Claim C3 (amended): the phone, postal, state, country, text/LOB/city,
CCN and DHC rules are idempotent, but the company, website, domain and
street rules are not: "c o" → "co" → "" (suffix resurrection),
"www.www.example.com" → "www.example.com" → "example.com" (single `www.`
strip), "a.www.x" → "www.x" → "x" (domain re-strips `www.`), and
"na n" → "nan" → "" (junk-sentinel resurrection). -/
theorem normalizer_rules_idempotence :
    (∀ col : List (Option Str),
      normalizePhoneCol (normalizePhoneCol col) = normalizePhoneCol col) ∧
    (∀ c, postalRule (some (postalRule c)) = postalRule c) ∧
    (∀ c, stateRule (some (stateRule c)) = stateRule c) ∧
    (∀ c, countryRule (some (countryRule c)) = countryRule c) ∧
    (∀ c, textRule (some (textRule c)) = textRule c) ∧
    (∀ c, ccnRule (some (ccnRule c)) = ccnRule c) ∧
    (∀ c, dhcRule (some (dhcRule c)) = dhcRule c) ∧
    companyRule (some (companyRule (some (ofString "c o"))))
      ≠ companyRule (some (ofString "c o")) ∧
    websiteRule (some (websiteRule (some (ofString "www.www.example.com"))))
      ≠ websiteRule (some (ofString "www.www.example.com")) ∧
    domainRule (some (domainRule (some (ofString "a.www.x"))))
      ≠ domainRule (some (ofString "a.www.x")) ∧
    streetRule (some (streetRule (some (ofString "na n"))))
      ≠ streetRule (some (ofString "na n")) :=
  ⟨normalizePhoneCol_idem, postalRule_idem, stateRule_idem, countryRule_idem,
   textRule_idem, ccnRule_idem, dhcRule_idem,
   by decide, by decide, by decide, by decide⟩

/-- Claim C2 counterexample: with an email column on both sides, an input
row whose email cell is absent (`NaN`) is matched by the Stage-1 email
pivot against a contact whose email cell is also absent: `astype(str)`
turns both cells into the literal string "nan" before the join, and the
`dropna` that follows is a no-op. -/
theorem email_pivot_matches_absent_email :
    (stage1Matches envC2).map
        (fun m => (m.original_index, m.match_score, m.match_type))
      = [(0, 100, ofString "Email Match")] ∧
    blankSRow.email = none ∧ contactNaN.email = none := by decide

/-- Claim C2 (amended): every account-scorer and contact-scorer signal
contributes zero when its two compared fields are both empty, provided the
external fuzzy ratios map a pair of empty strings to 0 (the
fuzzywuzzy-compatible integer semantics the specification prescribes for
cross-compatibility); the Stage-1 email pivot, however, does treat two
absent emails as agreeing, because both are stringified to "nan" before
the join. -/
theorem scorer_empty_fields_no_signal (fr tsr : Str → Str → ℕ) (w : Weights)
    (pen : Pen) (cw : CWeights)
    (hfr : fr [] [] = 0) (htsr : tsr [] [] = 0) :
    countrySignal pen [] [] = 0 ∧ stateSignal pen [] [] = 0 ∧
    nameSignal tsr w [] [] = 0 ∧ websiteSignal w pen [] [] = 0 ∧
    phoneSignal w [] [] = 0 ∧ streetSignal fr w [] [] = 0 ∧
    citySignal fr w [] [] = 0 ∧ postalSignal w [] [] = 0 ∧
    lobSignal tsr w [] [] = 0 ∧
    contactEmailSignal cw [] [] = 0 ∧ contactFirstSignal fr cw [] [] = 0 ∧
    contactLastSignal fr cw [] [] = 0 ∧ contactTitleSignal tsr cw [] [] = 0 ∧
    (stage1Matches envC2).map Match.original_index = [0] := by
  refine ⟨?_, ?_, ?_, ?_, ?_, ?_, ?_, ?_, ?_, ?_, ?_, ?_, ?_, by decide⟩
  · simp [countrySignal]
  · simp [stateSignal]
  · norm_num [nameSignal, htsr]
  · simp [websiteSignal]
  · simp [phoneSignal]
  · simp [streetSignal]
  · simp [citySignal]
  · simp [postalSignal]
  · simp [lobSignal]
  · simp [contactEmailSignal]
  · norm_num [contactFirstSignal, hfr]
  · norm_num [contactLastSignal, hfr]
  · norm_num [contactTitleSignal, htsr]

theorem scorer_empty_fields_no_signal_witness :
    countrySignal locPen [] [] = 0 ∧ stateSignal locPen [] [] = 0 ∧
    nameSignal zeroFr zeroW [] [] = 0 ∧ websiteSignal zeroW locPen [] [] = 0 ∧
    phoneSignal zeroW [] [] = 0 ∧ streetSignal zeroFr zeroW [] [] = 0 ∧
    citySignal zeroFr zeroW [] [] = 0 ∧ postalSignal zeroW [] [] = 0 ∧
    lobSignal zeroFr zeroW [] [] = 0 ∧
    contactEmailSignal zeroCW [] [] = 0 ∧ contactFirstSignal zeroFr zeroCW [] [] = 0 ∧
    contactLastSignal zeroFr zeroCW [] [] = 0 ∧ contactTitleSignal zeroFr zeroCW [] [] = 0 ∧
    (stage1Matches envC2).map Match.original_index = [0] :=
  scorer_empty_fields_no_signal zeroFr zeroFr zeroW locPen zeroCW rfl rfl

/-- Claim C1 counterexample: in `envC1` the single input row is matched by
no stage, yet its index appears in both the `_OUTPUT` stream (the final
left join keeps every input row, matched or not) and the `_MANUAL_REVIEW`
stream — the claim's exclusivity fails. -/
theorem unmatched_row_in_both_streams :
    outputIdx envC1 5 = [0] ∧ manualIdx envC1 5 = [0] ∧
    matchedIdx envC1 5 = [] := by decide

/-- Claim C1 (amended): every input row's index appears in the `_OUTPUT`
stream, and it appears in the `_MANUAL_REVIEW` stream exactly when no
stage matched it.  Hence no input row is dropped and a matched row appears
only in `_OUTPUT`, but an unmatched row appears in both streams rather
than only in `_MANUAL_REVIEW`. -/
theorem output_manualReview_coverage (env : Env) (T : ℚ) (r : SRow)
    (hr : r ∈ env.scrub) :
    r.idx ∈ outputIdx env T ∧
    (r.idx ∈ manualIdx env T ↔ r.idx ∉ matchedIdx env T) := by
  constructor
  · unfold outputIdx leftMerge
    rw [List.mem_map]
    cases hf : (finalMatches env T).filter (fun m => m.original_index == r.idx) with
    | nil =>
      refine ⟨(r, none), ?_, rfl⟩
      rw [List.mem_flatMap]
      refine ⟨r, hr, ?_⟩
      rw [hf]
      exact List.mem_singleton_self _
    | cons m ms =>
      refine ⟨(r, some m), ?_, rfl⟩
      rw [List.mem_flatMap]
      refine ⟨r, hr, ?_⟩
      rw [hf]
      exact List.mem_map_of_mem _ (List.mem_cons_self m ms)
  · unfold manualIdx
    constructor
    · intro h
      rw [List.mem_map] at h
      obtain ⟨r2, hr2, hidx⟩ := h
      rw [List.mem_filter] at hr2
      have h3 := of_decide_eq_true hr2.2
      rw [hidx] at h3
      exact h3
    · intro hn
      rw [List.mem_map]
      exact ⟨r, List.mem_filter.mpr ⟨hr, decide_eq_true hn⟩, rfl⟩

theorem output_manualReview_coverage_witness :
    blankSRow.idx ∈ outputIdx envC1 5 ∧
    (blankSRow.idx ∈ manualIdx envC1 5 ↔ blankSRow.idx ∉ matchedIdx envC1 5) :=
  output_manualReview_coverage envC1 5 blankSRow (by decide)

/-- Claim C4: raising `minimum_final_score` never adds matches — every
index matched under a higher threshold is matched under a lower one.
Stage 1 ignores the threshold; Stage 2's matched set shrinks as the
threshold grows; and a row that falls out of Stage 2 but carries a CCN/DHC
hit enters Stage 3 under the higher threshold while it was already matched
by Stage 2 under the lower one. -/
theorem threshold_monotone (env : Env) (T1 T2 : ℚ) (h : T1 ≤ T2) (i : Nat)
    (hi : i ∈ matchedIdx env T2) : i ∈ matchedIdx env T1 := by
  unfold matchedIdx finalMatches at hi ⊢
  rw [List.map_append, List.map_append, List.mem_append, List.mem_append] at hi ⊢
  rcases hi with (h1 | h2) | h3
  · exact Or.inl (Or.inl h1)
  · left; right
    rw [List.mem_map] at h2 ⊢
    obtain ⟨m, hm, rfl⟩ := h2
    rw [List.mem_filterMap] at hm
    obtain ⟨ob, hob, hid⟩ := hm
    refine ⟨m, ?_, rfl⟩
    rw [List.mem_filterMap]
    unfold stage2Matches at hob ⊢
    rw [List.mem_filterMap] at hob
    obtain ⟨q, hq, hrow⟩ := hob
    exact ⟨ob, List.mem_filterMap.mpr ⟨q, hq, stage2Row_mono h hrow⟩, hid⟩
  · rw [List.mem_map] at h3
    obtain ⟨m, hm, rfl⟩ := h3
    unfold stage3Matches at hm
    rw [List.mem_filterMap] at hm
    obtain ⟨q, hq, hrow⟩ := hm
    unfold unmatchedRows at hq
    rw [List.mem_filter] at hq
    obtain ⟨hqscrub, hqn⟩ := hq
    have hidx : m.original_index = q.idx := stage3Row_idx hrow
    by_cases hq1 : q.idx ∈ matched12 env T1
    · rw [hidx]
      unfold matched12 at hq1
      rw [List.mem_append] at hq1
      rcases hq1 with ha | hb
      · exact Or.inl (Or.inl ha)
      · exact Or.inl (Or.inr hb)
    · right
      rw [List.mem_map]
      refine ⟨m, ?_, rfl⟩
      unfold stage3Matches
      rw [List.mem_filterMap]
      refine ⟨q, ?_, hrow⟩
      unfold unmatchedRows
      rw [List.mem_filter]
      exact ⟨hqscrub, decide_eq_true hq1⟩

theorem threshold_monotone_witness : 0 ∈ matchedIdx envC4 1 :=
  threshold_monotone envC4 1 2 (by norm_num) 0 (by decide)

theorem find?_dedup_email (contacts : List CRow) (e : Str) :
    (dedupBy (fun c => cellStr c.email) contacts).find?
        (fun c => cellStr c.email == e)
      = contacts.find? (fun c => cellStr c.email == e) :=
  find?_dedupBy (fun c => cellStr c.email) e contacts

/-- Claim C6: when both the input and the contact reference carry an email
column, every input row whose (stringified) email equals some contact's
email yields a Stage-1 match record with score 100 and type "Email Match";
the matched contact is the first one with that email (the dedup keeps the
first occurrence, so `find?` over the deduplicated contacts equals `find?`
over the originals), its `accountid` is left-joined to the accounts on
`account_id`, and the row is excluded from the Stage-2 and Stage-3
domains. -/
theorem email_pivot_emits_match (env : Env) (hcols : env.hasEmailCols = true)
    (r : SRow) (hr : r ∈ env.scrub) (c : CRow) (hc : c ∈ env.contacts)
    (hmail : cellStr c.email = cellStr r.email) :
    ∃ c0, env.contacts.find? (fun c2 => cellStr c2.email == cellStr r.email)
        = some c0 ∧
      mkEmailMatch env r c0 ∈ stage1Matches env ∧
      (mkEmailMatch env r c0).original_index = r.idx ∧
      (mkEmailMatch env r c0).match_score = 100 ∧
      (mkEmailMatch env r c0).match_type = ofString "Email Match" ∧
      (mkEmailMatch env r c0).matched_accountid =
        (env.accounts.find? (fun a => a.account_id == c0.accountid)).map
          ARow.account_id ∧
      r ∉ fuzzyRows env ∧ (∀ T, r ∉ unmatchedRows env T) := by
  have hsome : (env.contacts.find?
      (fun c2 => cellStr c2.email == cellStr r.email)).isSome := by
    rw [List.find?_isSome]
    exact ⟨c, hc, by rw [hmail]; exact beq_self_eq_true _⟩
  obtain ⟨c0, hc0⟩ := Option.isSome_iff_exists.mp hsome
  have hstage1 : mkEmailMatch env r c0 ∈ stage1Matches env := by
    unfold stage1Matches
    rw [if_pos hcols, List.mem_filterMap]
    refine ⟨r, hr, ?_⟩
    rw [find?_dedup_email env.contacts (cellStr r.email), hc0]
    rfl
  have hidx1 : r.idx ∈ (stage1Matches env).map Match.original_index := by
    rw [List.mem_map]
    exact ⟨mkEmailMatch env r c0, hstage1, rfl⟩
  refine ⟨c0, hc0, hstage1, rfl, rfl, rfl, rfl, ?_, ?_⟩
  · intro hmem
    unfold fuzzyRows at hmem
    rw [List.mem_filter] at hmem
    exact of_decide_eq_true hmem.2 hidx1
  · intro T hmem
    unfold unmatchedRows at hmem
    rw [List.mem_filter] at hmem
    apply of_decide_eq_true hmem.2
    unfold matched12
    rw [List.mem_append]
    exact Or.inl hidx1

theorem email_pivot_emits_match_witness :
    ∃ c0, envC6.contacts.find?
        (fun c2 => cellStr c2.email == cellStr rowEmail.email) = some c0 ∧
      mkEmailMatch envC6 rowEmail c0 ∈ stage1Matches envC6 ∧
      (mkEmailMatch envC6 rowEmail c0).original_index = rowEmail.idx ∧
      (mkEmailMatch envC6 rowEmail c0).match_score = 100 ∧
      (mkEmailMatch envC6 rowEmail c0).match_type = ofString "Email Match" ∧
      (mkEmailMatch envC6 rowEmail c0).matched_accountid =
        (envC6.accounts.find? (fun a => a.account_id == c0.accountid)).map
          ARow.account_id ∧
      rowEmail ∉ fuzzyRows envC6 ∧ (∀ T, rowEmail ∉ unmatchedRows envC6 T) :=
  email_pivot_emits_match envC6 rfl rowEmail (by decide) contactEmail (by decide) rfl

theorem lookupIdx_buildIndex_nil (rows : List ARow) (f : ARow → Str) :
    lookupIdx (buildIndex rows f) [] = [] := by
  unfold lookupIdx
  have hnone : (buildIndex rows f).find? (fun e => e.1 == ([] : Str)) = none := by
    rw [List.find?_eq_none]
    intro x hx
    unfold buildIndex at hx
    rw [List.mem_map] at hx
    obtain ⟨k, hk, rfl⟩ := hx
    rw [List.mem_filter] at hk
    intro hbeq
    have hknil : k = [] := beq_iff_eq.mp hbeq
    have h2 := hk.2
    rw [hknil] at h2
    simp at h2
  rw [hnone]

theorem lookupIdx_postal_nil (env : Env) : lookupIdx (postalIdx env) [] = [] :=
  lookupIdx_buildIndex_nil env.accounts (fun a => a.normalizedpostal)

theorem lookupIdx_state_nil (env : Env) : lookupIdx (stateIdx env) [] = [] :=
  lookupIdx_buildIndex_nil env.accounts (fun a => a.state)

theorem lookupIdx_domain_nil (env : Env) : lookupIdx (domainIdx env) [] = [] :=
  lookupIdx_buildIndex_nil env.accounts (fun a => a.normalizeddomain)

theorem lookupIdx_phone_nil (env : Env) : lookupIdx (phoneIdx env) [] = [] :=
  lookupIdx_buildIndex_nil env.accounts (fun a => a.normalizedphone)

/-- Claim C7: blocking indexes contain only non-empty keys, and for every
query row the candidate set is the first non-empty result of the postal,
state, domain and phone lookups attempted in that order, with all account
positions as the fallback.  (A row whose key is empty skips the attempt in
the source; because empty keys are excluded from the indexes, that is the
same as the attempt returning the empty list.) -/
theorem blocker_first_nonempty_policy (env : Env) :
    (∀ f : ARow → Str, ∀ e ∈ buildIndex env.accounts f, e.1 ≠ []) ∧
    (∀ q, candidateIndices env q = candidateIndicesSpec env q) := by
  constructor
  · intro f e he
    unfold buildIndex at he
    rw [List.mem_map] at he
    obtain ⟨k, hk, rfl⟩ := he
    rw [List.mem_filter] at hk
    intro hnil
    have hknil : k = [] := hnil
    have h2 := hk.2
    rw [hknil] at h2
    simp at h2
  · intro q
    have hpost : (if q.normalizedpostal ≠ [] then
        lookupIdx (postalIdx env) q.normalizedpostal else [])
        = lookupIdx (postalIdx env) q.normalizedpostal := by
      by_cases h : q.normalizedpostal = []
      · rw [if_neg (not_not_intro h), h, lookupIdx_postal_nil]
      · rw [if_pos h]
    have hst : ∀ x : List Nat,
        (if x = [] ∧ q.state ≠ [] then lookupIdx (stateIdx env) q.state else x)
        = (if x = [] then lookupIdx (stateIdx env) q.state else x) := by
      intro x
      by_cases hx : x = []
      · by_cases hs : q.state = []
        · rw [if_neg (by simp [hx, hs]), if_pos hx, hx, hs, lookupIdx_state_nil]
        · rw [if_pos ⟨hx, hs⟩, if_pos hx]
      · rw [if_neg (by simp [hx]), if_neg hx]
    have hdom : ∀ x : List Nat,
        (if x = [] ∧ q.normalizeddomain ≠ [] then
          lookupIdx (domainIdx env) q.normalizeddomain else x)
        = (if x = [] then lookupIdx (domainIdx env) q.normalizeddomain else x) := by
      intro x
      by_cases hx : x = []
      · by_cases hs : q.normalizeddomain = []
        · rw [if_neg (by simp [hx, hs]), if_pos hx, hx, hs, lookupIdx_domain_nil]
        · rw [if_pos ⟨hx, hs⟩, if_pos hx]
      · rw [if_neg (by simp [hx]), if_neg hx]
    have hph : ∀ x : List Nat,
        (if x = [] ∧ q.normalizedphone ≠ [] then
          lookupIdx (phoneIdx env) q.normalizedphone else x)
        = (if x = [] then lookupIdx (phoneIdx env) q.normalizedphone else x) := by
      intro x
      by_cases hx : x = []
      · by_cases hs : q.normalizedphone = []
        · rw [if_neg (by simp [hx, hs]), if_pos hx, hx, hs, lookupIdx_phone_nil]
        · rw [if_pos ⟨hx, hs⟩, if_pos hx]
      · rw [if_neg (by simp [hx]), if_neg hx]
    simp only [candidateIndices]
    rw [hpost, hst, hdom, hph]
    unfold candidateIndicesSpec
    by_cases k1 : lookupIdx (postalIdx env) q.normalizedpostal = [] <;>
      by_cases k2 : lookupIdx (stateIdx env) q.state = [] <;>
        by_cases k3 : lookupIdx (domainIdx env) q.normalizeddomain = [] <;>
          by_cases k4 : lookupIdx (phoneIdx env) q.normalizedphone = [] <;>
            simp [k1, k2, k3, k4]

theorem blocker_first_nonempty_policy_witness :
    ((ofString "11111", [0]) ∈ buildIndex envC7.accounts
        (fun a => a.normalizedpostal) →
      (ofString "11111", ([0] : List Nat)).1 ≠ []) ∧
    candidateIndices envC7 qC7 = candidateIndicesSpec envC7 qC7 :=
  ⟨(blocker_first_nonempty_policy envC7).1 (fun a => a.normalizedpostal)
      (ofString "11111", [0]),
   (blocker_first_nonempty_policy envC7).2 qC7⟩

theorem stage3Row_facts {env : Env} {q : SRow} {m : Match}
    (h : stage3Row env q = some m) :
    m.match_score = 99 ∧
    (m.match_type = ofString "CCN Match" ∨ m.match_type = ofString "DHC Match") := by
  unfold stage3Row at h
  cases h1 : (if q.normalizedccn ≠ [] then
      (ccnTable env).find? (fun a => a.normalizedccn == q.normalizedccn)
    else none) with
  | some a =>
    rw [h1] at h
    cases h
    exact ⟨rfl, Or.inl rfl⟩
  | none =>
    rw [h1] at h
    cases h2 : (if q.normalizeddhc ≠ [] then
        (dhcTable env).find? (fun a => a.normalizeddhc == q.normalizeddhc)
      else none) with
    | some a =>
      rw [h2] at h
      cases h
      exact ⟨rfl, Or.inr rfl⟩
    | none =>
      rw [h2] at h
      cases h

/-- Claim C8 counterexample: an account whose `normalizedccn` is the
canonical empty string survives into the CCN lookup table — the `dropna`
drops nothing because the absent value is `""`, not `NaN` — so the code's
table (`ccnTable`) differs from the claimed one (`ccnTableSpec`, which
drops empty keys) and retains an empty key. -/
theorem ccn_lookup_retains_empty_key :
    ccnTable envC8 = [aC8] ∧ aC8.normalizedccn = [] ∧
    ccnTableSpec envC8 = [] := by decide

/-- Claim C8 (amended): Stage 3 operates only on rows unmatched by Stages
1-2, consults the CCN lookup before the DHC lookup, and every emitted
match has score 99 and type "CCN Match" or "DHC Match"; the lookup tables
retain the first account per key value, but they do NOT drop empty keys —
instead, rows with empty identifiers skip the lookups, so an empty key
still never produces a match. -/
theorem stage3_fallback_characterization (env : Env) (T : ℚ) :
    (∀ m ∈ stage3Matches env T,
      m.original_index ∉ matched12 env T ∧ m.match_score = 99 ∧
      (m.match_type = ofString "CCN Match" ∨ m.match_type = ofString "DHC Match")) ∧
    (∀ (q : SRow) (a : ARow), q.normalizedccn ≠ [] →
      (ccnTable env).find? (fun a2 => a2.normalizedccn == q.normalizedccn) = some a →
      stage3Row env q = some (mkIdMatch q a (ofString "CCN Match"))) ∧
    (∀ k, (ccnTable env).find? (fun a => a.normalizedccn == k)
      = env.accounts.find? (fun a => a.normalizedccn == k)) ∧
    (∀ k, (dhcTable env).find? (fun a => a.normalizeddhc == k)
      = env.accounts.find? (fun a => a.normalizeddhc == k)) ∧
    (∀ q : SRow, q.normalizedccn = [] → q.normalizeddhc = [] →
      stage3Row env q = none) := by
  refine ⟨?_, ?_, ?_, ?_, ?_⟩
  · intro m hm
    unfold stage3Matches at hm
    rw [List.mem_filterMap] at hm
    obtain ⟨q, hq, hrow⟩ := hm
    unfold unmatchedRows at hq
    rw [List.mem_filter] at hq
    have hidx := stage3Row_idx hrow
    have hfacts := stage3Row_facts hrow
    refine ⟨?_, hfacts.1, hfacts.2⟩
    rw [hidx]
    exact of_decide_eq_true hq.2
  · intro q a hq hfind
    unfold stage3Row
    rw [if_pos hq, hfind]
  · intro k
    exact find?_dedupBy (fun a => a.normalizedccn) k env.accounts
  · intro k
    exact find?_dedupBy (fun a => a.normalizeddhc) k env.accounts
  · intro q h1 h2
    unfold stage3Row
    rw [if_neg (not_not_intro h1), if_neg (not_not_intro h2)]

theorem stage3_fallback_characterization_witness :
    (mkIdMatch rowC8 aC8b (ofString "CCN Match")).original_index
        ∉ matched12 envC8b 5 ∧
    (mkIdMatch rowC8 aC8b (ofString "CCN Match")).match_score = 99 ∧
    ((mkIdMatch rowC8 aC8b (ofString "CCN Match")).match_type
        = ofString "CCN Match" ∨
      (mkIdMatch rowC8 aC8b (ofString "CCN Match")).match_type
        = ofString "DHC Match") :=
  (stage3_fallback_characterization envC8b 5).1
    (mkIdMatch rowC8 aC8b (ofString "CCN Match")) (by decide)

theorem scoreC5_eq : scoreCandidate zeroFr zeroFr zeroW locPen qC5 aC5 = -2 := by
  unfold scoreCandidate
  rw [show countrySignal locPen qC5.country aC5.country = -2 from by
    unfold countrySignal
    rw [if_pos (by decide : qC5.country ≠ [] ∧ aC5.country ≠ [] ∧
      qC5.country ≠ aC5.country)]
    norm_num [locPen]]
  rw [show stateSignal locPen qC5.state aC5.state = 0 from by
    unfold stateSignal
    rw [if_neg (by decide)]]
  rw [show nameSignal zeroFr zeroW qC5.normalizedcompany aC5.normalizedcompany = 0
      from by norm_num [nameSignal, zeroFr, zeroW]]
  rw [show websiteSignal zeroW locPen qC5.normalizedwebsite aC5.normalizedwebsite = 0
      from by
    unfold websiteSignal
    rw [if_neg (by decide), if_neg (by decide)]]
  rw [show phoneSignal zeroW qC5.normalizedphone aC5.normalizedphone = 0 from by
    unfold phoneSignal
    rw [if_neg (by decide)]]
  rw [show streetSignal zeroFr zeroW qC5.normalizedstreet aC5.normalizedstreet = 0
      from by
    unfold streetSignal
    rw [if_neg (by decide)]]
  rw [show citySignal zeroFr zeroW qC5.city aC5.city = 0 from by
    unfold citySignal
    rw [if_neg (by decide)]]
  rw [show postalSignal zeroW qC5.normalizedpostal aC5.normalizedpostal = 0 from by
    unfold postalSignal
    rw [if_neg (by decide)]]
  rw [show lobSignal zeroFr zeroW qC5.normalized_lob aC5.normalized_lob = 0 from by
    unfold lobSignal
    rw [if_neg (by decide)]]
  norm_num

theorem scoreC5w_eq : scoreCandidate zeroFr zeroFr zeroW locPen qC5 aC5w = 0 := by
  unfold scoreCandidate
  rw [show countrySignal locPen qC5.country aC5w.country = 0 from by
    unfold countrySignal
    rw [if_neg (by decide)]]
  rw [show stateSignal locPen qC5.state aC5w.state = 0 from by
    unfold stateSignal
    rw [if_neg (by decide)]]
  rw [show nameSignal zeroFr zeroW qC5.normalizedcompany aC5w.normalizedcompany = 0
      from by norm_num [nameSignal, zeroFr, zeroW]]
  rw [show websiteSignal zeroW locPen qC5.normalizedwebsite aC5w.normalizedwebsite = 0
      from by
    unfold websiteSignal
    rw [if_neg (by decide), if_neg (by decide)]]
  rw [show phoneSignal zeroW qC5.normalizedphone aC5w.normalizedphone = 0 from by
    unfold phoneSignal
    rw [if_neg (by decide)]]
  rw [show streetSignal zeroFr zeroW qC5.normalizedstreet aC5w.normalizedstreet = 0
      from by
    unfold streetSignal
    rw [if_neg (by decide)]]
  rw [show citySignal zeroFr zeroW qC5.city aC5w.city = 0 from by
    unfold citySignal
    rw [if_neg (by decide)]]
  rw [show postalSignal zeroW qC5.normalizedpostal aC5w.normalizedpostal = 0 from by
    unfold postalSignal
    rw [if_neg (by decide)]]
  rw [show lobSignal zeroFr zeroW qC5.normalized_lob aC5w.normalized_lob = 0 from by
    unfold lobSignal
    rw [if_neg (by decide)]]
  norm_num

/-- Claim C5 counterexample: in `envC5` the single (hence also
highest-similarity) candidate scores `-2`, which is at least the threshold
`-100`, so by the claim it should be kept and emitted; but the scan's
running best starts at the `-1` sentinel with a strict comparison, so
`best_match` stays `None` and the row appends a null record instead of a
match for the candidate. -/
theorem stage2_sentinel_swallows_best :
    scoreCandidate zeroFr zeroFr zeroW locPen qC5 aC5 ≥ (-100 : ℚ) ∧
    stage2Row envC5 (-100) qC5 = some none := by
  have hpairs : scoredPairs envC5 qC5
      = [(mkFuzzyMatch envC5 qC5 0 (scoreCandidate zeroFr zeroFr zeroW locPen qC5 aC5),
          scoreCandidate zeroFr zeroFr zeroW locPen qC5 aC5)] := by rfl
  have hfm : firstMax (scoredPairs envC5 qC5)
      = some (mkFuzzyMatch envC5 qC5 0 (scoreCandidate zeroFr zeroFr zeroW locPen qC5 aC5),
          scoreCandidate zeroFr zeroFr zeroW locPen qC5 aC5) := by
    rw [hpairs]
    rfl
  have hs2 : stage2Scan envC5 qC5 = (none, -1) := by
    unfold stage2Scan
    rw [bestScan_eq, hfm, mergeAcc_pair,
      if_neg (by rw [scoreC5_eq]; norm_num)]
  constructor
  · rw [scoreC5_eq]; norm_num
  · unfold stage2Row
    rw [if_neg (by decide), hs2, if_pos (by norm_num)]

/-- Claim C5 (amended): for every Stage-2 row with a non-empty search
string, the 25 candidates of highest cosine similarity within the blocked
candidate set are scored (any unselected candidate's similarity is at most
any selected one's), and — provided the best score exceeds the scan's `-1`
sentinel — the single candidate with the highest score is kept, the
first-seen candidate winning on score ties, and a fuzzy match for it is
emitted if and only if that score is at least `minimum_final_score`.  (When
every scored candidate scores at most `-1`, no candidate is kept; see the
counterexample.) -/
theorem stage2_scan_keeps_first_best (env : Env) (T : ℚ) (q : SRow)
    (hss : rowSearchString q ≠ []) (p : Match × ℚ)
    (hp : firstMax (scoredPairs env q) = some p) (hgt : -1 < p.2) :
    (∀ j, j < ((candidateIndices env q).map (env.sim (rowSearchString q))).length →
      j ∉ topLocal ((candidateIndices env q).map (env.sim (rowSearchString q))) →
      ∀ i ∈ topLocal ((candidateIndices env q).map (env.sim (rowSearchString q))),
        ((candidateIndices env q).map (env.sim (rowSearchString q))).getD j 0
          ≤ ((candidateIndices env q).map (env.sim (rowSearchString q))).getD i 0) ∧
    (∃ l1 l2, scoredPairs env q = l1 ++ p :: l2 ∧
      (∀ x ∈ l1, x.2 < p.2) ∧ (∀ x ∈ l2, x.2 ≤ p.2)) ∧
    stage2Row env T q = (if p.2 ≥ T then some (some p.1) else none) := by
  refine ⟨?_, firstMax_first hp, ?_⟩
  · intro j hj hnot i hi
    exact topLocal_top _ j hj hnot i hi
  · have hscan : stage2Scan env q = (some p.1, p.2) := by
      unfold stage2Scan
      rw [bestScan_eq, hp, mergeAcc_pair, if_pos hgt]
    unfold stage2Row
    rw [if_neg hss, hscan]

theorem stage2_scan_keeps_first_best_witness :
    (∀ j, j < ((candidateIndices envC5w qC5).map (envC5w.sim (rowSearchString qC5))).length →
      j ∉ topLocal ((candidateIndices envC5w qC5).map (envC5w.sim (rowSearchString qC5))) →
      ∀ i ∈ topLocal ((candidateIndices envC5w qC5).map (envC5w.sim (rowSearchString qC5))),
        ((candidateIndices envC5w qC5).map (envC5w.sim (rowSearchString qC5))).getD j 0
          ≤ ((candidateIndices envC5w qC5).map (envC5w.sim (rowSearchString qC5))).getD i 0) ∧
    (∃ l1 l2, scoredPairs envC5w qC5 = l1 ++ pC5w :: l2 ∧
      (∀ x ∈ l1, x.2 < pC5w.2) ∧ (∀ x ∈ l2, x.2 ≤ pC5w.2)) ∧
    stage2Row envC5w 0 qC5 = (if pC5w.2 ≥ (0 : ℚ) then some (some pC5w.1) else none) :=
  stage2_scan_keeps_first_best envC5w 0 qC5 (by decide) pC5w (by rfl)
    (by
      rw [show pC5w.2 = scoreCandidate zeroFr zeroFr zeroW locPen qC5 aC5w from rfl,
        scoreC5w_eq]
      norm_num)
